import Mathlib

/-!
# Local Peer Discovery (src/ext-lpd.c): embedding and verified properties

A shallow embedding of the LPD module of KadNode.

* C strings are lists of characters without their terminating NUL; a byte
  buffer is a list of characters and `cstr` cuts it at its first NUL.
* The process-wide variables `g_packet_limit`, `g_mcast_registered` and
  `g_mcast_time` form the record `State`; the callback
  `bootstrap_handle_mcast` is a function from the state before to the state
  after, together with the list of calls it made to its collaborators
  (sockets, overlay), in the order in which it made them.
* Whatever the collaborators answer during one invocation (clock, peer count,
  return codes of the system calls, the datagram that is waiting) is the
  record `Env`.
* The socket set-up (`create_send_socket`, `create_receive_socket`,
  `multicast_disable_loop`) returns the descriptor and the list of the
  `setsockopt` requests it issued, with the value each request passes.
* Logging is not modelled.
-/

namespace LPD

/-! ## C strings -/

/-- The NUL character, which terminates a C string. -/
def NUL : Char := Char.ofNat 0

/-- The C string that starts a byte buffer: the bytes before the first NUL. -/
def cstr (buf : List Char) : List Char :=
  buf.takeWhile (fun c => c != NUL)

/-- The libc function `strstr(str, param)`: the suffix of `str` that starts at
the first occurrence of `param`, or `none` (NULL) when there is none. -/
def strstr : List Char → List Char → Option (List Char)
  | [], param => if param.isEmpty then some [] else none
  | c :: cs, param =>
    if param.isPrefixOf (c :: cs) then some (c :: cs) else strstr cs param

/-- Source: `parse_packet_param`, lines 153-162; `none` is NULL, otherwise the
text that follows the first occurrence of `param`. -/
def parse_packet_param (str param : List Char) : Option (List Char) :=
  match strstr str param with
  | none => none
  | some pos => some (pos.drop param.length)

/-! ## The conversions of libc used by the codec -/

/-- The libc predicate `isspace` in the C locale. -/
def isspace (c : Char) : Bool :=
  c == ' ' || c == '\t' || c == '\n' || c == Char.ofNat 11 || c == Char.ofNat 12 || c == '\r'

/-- The libc predicate `isdigit`. -/
def isdigit (c : Char) : Bool :=
  decide (48 ≤ c.toNat) && decide (c.toNat ≤ 57)

/-- The value of a decimal digit character. -/
def digit_value (c : Char) : Nat := c.toNat - 48

/-- The value of a string of decimal digits. -/
def decimal_value (ds : List Char) : Nat :=
  ds.foldl (fun acc d => 10 * acc + digit_value d) 0

/-- What `strtol` returns for a value outside the range of `long` (64 bits):
the nearest bound. -/
def strtol_clamp (v : Int) : Int :=
  max (-(2 ^ 63)) (min v (2 ^ 63 - 1))

/-- Conversion of an integer to the 32-bit `int` (two's complement). -/
def to_int (v : Int) : Int :=
  (v + 2 ^ 31) % 2 ^ 32 - 2 ^ 31

/-- Conversion of an integer to `unsigned int` (32 bits). -/
def to_unsigned (v : Int) : Nat :=
  (v % 2 ^ 32).toNat

/-- Conversion of an integer to `unsigned short` (16 bits). -/
def to_unsigned_short (v : Int) : Nat :=
  (v % 65536).toNat

/-- The call `sscanf(beg, "%d\r\n", &port)` of line 174, as the pair of its
return value and of the value of `port` after it. `%d` skips white space,
reads an optional sign and the longest run of decimal digits; without a digit
nothing is stored and the return value is not 1 (-1 at the end of the input,
0 on a mismatch). The white space directive that follows `%d` stores nothing
and does not change the return value. A value that does not fit an `int` is
stored as glibc does: `strtol` saturates at the bounds of `long` and the
result is truncated to 32 bits. -/
def sscanf_d (beg : List Char) (port : Int) : Int × Int :=
  match beg.dropWhile isspace with
  | [] => (-1, port)
  | c :: cs =>
    let body := if c == '-' || c == '+' then cs else c :: cs
    let ds := body.takeWhile isdigit
    if ds.isEmpty then (0, port)
    else
      let v : Int := (decimal_value ds : Int)
      (1, to_int (strtol_clamp (if c == '-' then -v else v)))

/-- Source: `parse_packet`, lines 164-191. The argument is the C string the
pointer `str` points at. -/
def parse_packet (str : List Char) : Int :=
  match parse_packet_param str "Port: ".toList with
  | none => 0
  | some beg =>
    let r := sscanf_d beg 0
    let port := r.2
    if r.1 ≠ 1 ∧ port > 0 ∧ port < 65536 then 0
    else
      match parse_packet_param str "Server: ".toList with
      | none => 0
      | some _ =>
        match parse_packet_param str "Version: ".toList with
        | none => 0
        | some _ => port

/-- The decimal digit character of a number below ten. -/
def digit_char (d : Nat) : Char := Char.ofNat (48 + d)

/-- The decimal representation of `n` in at most `width` digits, most
significant digit first, without leading zeros. -/
def decimal : Nat → Nat → List Char
  | 0, _ => []
  | width + 1, n =>
    if n < 10 then [digit_char n]
    else decimal width (n / 10) ++ [digit_char (n % 10)]

/-- The conversion `%u` of printf for an `unsigned int`, which has at most
ten decimal digits. -/
def fmt_u (n : Nat) : List Char := decimal 10 n

/-- Expansion of a printf format whose only argument is one `unsigned int`:
`%u` writes the argument, `%%` writes a percent sign, any other character is
copied. -/
def format_u : List Char → Nat → List Char
  | [], _ => []
  | [c], _ => [c]
  | c :: d :: rest, arg =>
    if c = '%' ∧ d = 'u' then fmt_u arg ++ format_u rest arg
    else if c = '%' ∧ d = '%' then '%' :: format_u rest arg
    else c :: format_u (d :: rest) arg

/-- The call `snprintf(buf, size, fmt, arg)`: the C string left in `buf`,
which is the expansion of the format cut to `size - 1` characters. The
format is the C string held by the array `fmt`. -/
def snprintf (size : Nat) (fmt : List Char) (arg : Nat) : List Char :=
  (format_u (cstr fmt) arg).take (size - 1)

/-- Source: `msg_fmt`, lines 20-26. The macro `MAIN_VERSION` is defined in
main.h, which is not part of the sources at hand; it is a parameter. It is
pasted into a printf format, so it is a version text without `%`. -/
def msg_fmt (MAIN_VERSION : List Char) : List Char :=
  "DHT-SEARCH * HTTP/1.0\r\n".toList ++ "Port: %u\r\n".toList ++ "Server: KadNode\r\n".toList
    ++ "Version: ".toList ++ MAIN_VERSION ++ "\r\n".toList ++ "\r\n".toList ++ "\r\n".toList

/-! ## Addresses -/

/-- The address family of a socket address (`ss_family`). -/
inductive Family where
  | AF_INET
  | AF_INET6
  | other (n : Nat)
deriving DecidableEq, Repr

/-- A socket address (`IP` is `struct sockaddr_storage`): its family, the two
bytes of its port field (`sin_port` or `sin6_port`) in the order in which they
lie in memory, and its remaining bytes. -/
structure IP where
  ss_family : Family
  port : Nat × Nat
  rest : List Nat
deriving DecidableEq, Repr

/-- The libc function `htons`, as the two bytes of its result in memory: the
high byte of the port first (network byte order), on every host. -/
def htons (port : Nat) : Nat × Nat :=
  (port / 256 % 256, port % 256)

/-- Source: `set_port`, lines 193-202: the address after the call and the
return value. The argument `port` is an `unsigned short`. -/
def set_port (addr : IP) (port : Nat) : IP × Int :=
  if addr.ss_family = Family.AF_INET then
    ({ addr with port := htons port }, 0)
  else if addr.ss_family = Family.AF_INET6 then
    ({ addr with port := htons port }, 0)
  else
    (addr, 1)

/-! ## State, configuration, environment and calls -/

/-- Source: line 28. -/
def PACKET_LIMIT_MAX : Int := 20

/-- The process-wide variables of lines 29-32 that the callback changes. -/
structure State where
  g_packet_limit : Int
  g_mcast_registered : Int
  g_mcast_time : Int
deriving DecidableEq, Repr

/-- What is fixed once the module is set up: which of the two variants of the
join and leave requests was compiled (`modern` when `MCAST_JOIN_GROUP` is
defined and the platform is not Apple), the version text, the interface name
`gconf->dht_ifce` (`none` is NULL), the value `atoi( gconf->dht_port )` and
the multicast address `g_lpd_addr`. -/
structure Conf where
  modern : Bool
  MAIN_VERSION : List Char
  dht_ifce : Option (List Char)
  dht_port : Int
  g_lpd_addr : IP
deriving DecidableEq, Repr

/-- The socket options of the membership requests. -/
inductive Sockopt where
  | MCAST_JOIN_GROUP
  | MCAST_LEAVE_GROUP
  | IP_ADD_MEMBERSHIP
  | IP_DROP_MEMBERSHIP
  | IPV6_JOIN_GROUP
  | IPV6_LEAVE_GROUP
deriving DecidableEq, Repr

/-- A call made by the callback to one of its collaborators. -/
inductive Call where
  | mcast_join_group
  | mcast_leave_group
  | if_nametoindex (ifce : List Char)
  | ioctl_SIOCGIFADDR (ifce : List Char)
  | setsockopt (optname : Sockopt)
  | sendto (payload : List Char)
  | recvfrom (size : Nat)
  | kad_ping (addr : IP)
deriving DecidableEq, Repr

/-- What the collaborators answer during one invocation of the callback:
the clock `time_now_sec()`, the peer count `kad_count_nodes( 0 )`, the
results of `if_nametoindex` and of `ioctl`, the return values of the
`setsockopt` of a join and of a leave, the return value of `sendto` (which
only selects a log message), and the datagram with its sender that `recvfrom`
delivers (`none`: the receive fails). -/
structure Env where
  now : Int
  nodes : Int
  if_index : Nat
  ioctl_rc : Int
  join_rc : Int
  leave_rc : Int
  send_rc : Int
  datagram : Option (List Char × IP)
deriving DecidableEq, Repr

/-- Modelled from the spec: the helper `time_add_min` of utils.c, which is
not part of the sources at hand; the spec calls it the "time N minutes from
now" of the clock abstraction. -/
def time_add_min (now : Int) (minutes : Nat) : Int :=
  now + 60 * minutes

/-- The system call `recvfrom( sock, buf, size, 0, &c_addr, &addrlen )`: its
return value, the bytes it stored in `buf` and the sender address. A datagram
longer than the buffer is cut to `size` bytes. -/
def recvfrom (datagram : Option (List Char × IP)) (size : Nat) (c_addr : IP) :
    Int × List Char × IP :=
  match datagram with
  | none => (-1, [], c_addr)
  | some (payload, sender) => ((min payload.length size : Nat), payload.take size, sender)

/-! ## Group membership requests -/

/-- Source: `mcast_join_group`, lines 37-108: the return value and the system
calls made. -/
def mcast_join_group (modern : Bool) (addr : IP) (ifce : Option (List Char)) (e : Env) :
    Int × List Call :=
  if modern then
    match ifce with
    | some name =>
      if e.if_index = 0 then (-1, [Call.if_nametoindex name])
      else if e.join_rc < 0 then
        (-1, [Call.if_nametoindex name, Call.setsockopt Sockopt.MCAST_JOIN_GROUP])
      else (0, [Call.if_nametoindex name, Call.setsockopt Sockopt.MCAST_JOIN_GROUP])
    | none =>
      if e.join_rc < 0 then (-1, [Call.setsockopt Sockopt.MCAST_JOIN_GROUP])
      else (0, [Call.setsockopt Sockopt.MCAST_JOIN_GROUP])
  else
    match addr.ss_family with
    | Family.AF_INET =>
      match ifce with
      | some name =>
        if e.ioctl_rc < 0 then (-1, [Call.ioctl_SIOCGIFADDR name])
        else if e.join_rc < 0 then
          (-1, [Call.ioctl_SIOCGIFADDR name, Call.setsockopt Sockopt.IP_ADD_MEMBERSHIP])
        else (0, [Call.ioctl_SIOCGIFADDR name, Call.setsockopt Sockopt.IP_ADD_MEMBERSHIP])
      | none =>
        if e.join_rc < 0 then (-1, [Call.setsockopt Sockopt.IP_ADD_MEMBERSHIP])
        else (0, [Call.setsockopt Sockopt.IP_ADD_MEMBERSHIP])
    | Family.AF_INET6 =>
      match ifce with
      | some name =>
        if e.if_index = 0 then (-1, [Call.if_nametoindex name])
        else if e.join_rc < 0 then
          (-1, [Call.if_nametoindex name, Call.setsockopt Sockopt.IPV6_JOIN_GROUP])
        else (0, [Call.if_nametoindex name, Call.setsockopt Sockopt.IPV6_JOIN_GROUP])
      | none =>
        if e.join_rc < 0 then (-1, [Call.setsockopt Sockopt.IPV6_JOIN_GROUP])
        else (0, [Call.setsockopt Sockopt.IPV6_JOIN_GROUP])
    | Family.other _ => (-1, [])

/-- Source: `mcast_leave_group`, lines 110-151: the return value and the
system calls made. -/
def mcast_leave_group (modern : Bool) (addr : IP) (e : Env) : Int × List Call :=
  if modern then
    if e.leave_rc < 0 then (-1, [Call.setsockopt Sockopt.MCAST_LEAVE_GROUP])
    else (0, [Call.setsockopt Sockopt.MCAST_LEAVE_GROUP])
  else
    match addr.ss_family with
    | Family.AF_INET =>
      if e.leave_rc < 0 then (-1, [Call.setsockopt Sockopt.IP_DROP_MEMBERSHIP])
      else (0, [Call.setsockopt Sockopt.IP_DROP_MEMBERSHIP])
    | Family.AF_INET6 =>
      if e.leave_rc < 0 then (-1, [Call.setsockopt Sockopt.IPV6_LEAVE_GROUP])
      else (0, [Call.setsockopt Sockopt.IPV6_LEAVE_GROUP])
    | Family.other _ => (-1, [])

/-! ## The discovery callback -/

/-- The probe that line 221 writes into `buf` and line 224 sends: the first
`strlen( buf )` bytes of the buffer filled by `snprintf`. The `int` returned
by `atoi` is read by `%u` as an `unsigned int`. -/
def probe (MAIN_VERSION : List Char) (port : Int) : List Char :=
  cstr (snprintf 512 (msg_fmt MAIN_VERSION) (to_unsigned port))

/-- Source: `bootstrap_handle_mcast`, lines 215-218: the join, made only while
the membership flag is 0. -/
def join_step (cfg : Conf) (e : Env) (s : State) : State × List Call :=
  if s.g_mcast_registered = 0 then
    let r := mcast_join_group cfg.modern cfg.g_lpd_addr cfg.dht_ifce e
    if r.1 = 0 then ({ s with g_mcast_registered := 1 }, Call.mcast_join_group :: r.2)
    else (s, Call.mcast_join_group :: r.2)
  else (s, [])

/-- Source: `bootstrap_handle_mcast`, lines 220-230: the probe, sent only
while the membership flag is 1. -/
def send_step (cfg : Conf) (s : State) : List Call :=
  if s.g_mcast_registered = 1 then [Call.sendto (probe cfg.MAIN_VERSION cfg.dht_port)]
  else []

/-- Source: `bootstrap_handle_mcast`, lines 212-238: the part of the callback
that runs when the probe timer is due. -/
def timer_step (cfg : Conf) (e : Env) (s : State) : State × List Call :=
  if s.g_mcast_time ≤ e.now then
    let r : State × List Call :=
      if e.nodes = 0 then
        let j := join_step cfg e s
        (j.1, j.2 ++ send_step cfg j.1)
      else (s, [])
    ({ r.1 with g_packet_limit := 5 * PACKET_LIMIT_MAX, g_mcast_time := time_add_min e.now 5 },
      r.2)
  else (s, [])

/-- Source: `bootstrap_handle_mcast`, lines 240-277: the part of the callback
that receives and handles one datagram. The local `c_addr` is not initialised;
`c_addr0` is what it holds before the receive. -/
def receive_step (cfg : Conf) (e : Env) (rc : Int) (c_addr0 : IP) (s : State) :
    State × List Call :=
  if rc ≤ 0 then (s, [])
  else
    let r := recvfrom e.datagram 512 c_addr0
    let rc_recv := r.1
    let buf := r.2.1
    let c_addr := r.2.2
    if rc_recv < 0 then (s, [Call.recvfrom 512])
    else if s.g_packet_limit < 0 then
      if s.g_mcast_registered = 1 then
        let l := mcast_leave_group cfg.modern cfg.g_lpd_addr e
        if l.1 = 0 then
          ({ s with g_mcast_registered := 0 }, Call.recvfrom 512 :: Call.mcast_leave_group :: l.2)
        else (s, Call.recvfrom 512 :: Call.mcast_leave_group :: l.2)
      else (s, [Call.recvfrom 512])
    else
      let s1 := { s with g_packet_limit := s.g_packet_limit - 1 }
      if rc_recv ≥ 512 then (s1, [Call.recvfrom 512])
      else
        let port := parse_packet (cstr (buf.take rc_recv.toNat))
        if port > 0 then
          (s1, [Call.recvfrom 512, Call.kad_ping (set_port c_addr (to_unsigned_short port)).1])
        else (s1, [Call.recvfrom 512])

/-- Source: `bootstrap_handle_mcast`, lines 204-277: the state after one
invocation and the calls made, in order. -/
def bootstrap_handle_mcast (cfg : Conf) (e : Env) (rc : Int) (c_addr0 : IP) (s : State) :
    State × List Call :=
  let t := timer_step cfg e s
  let r := receive_step cfg e rc c_addr0 t.1
  (r.1, t.2 ++ r.2)

/-- Source: `lpd_setup`, lines 329-348, with the initial values of lines
29-32: the state in which the callback is registered. -/
def lpd_setup : State :=
  { g_packet_limit := PACKET_LIMIT_MAX, g_mcast_registered := 0, g_mcast_time := 0 }

/-- One invocation of the callback by the event loop: its argument `rc`, the
content of its uninitialised local `c_addr`, and the answers of the
collaborators. -/
structure Invocation where
  rc : Int
  c_addr0 : IP
  env : Env
deriving DecidableEq, Repr

/-- A sequence of invocations of the callback, one after the other: the final
state and all calls made. -/
def run (cfg : Conf) : List Invocation → State → State × List Call
  | [], s => (s, [])
  | i :: rest, s =>
    let r := bootstrap_handle_mcast cfg i.env i.rc i.c_addr0 s
    let q := run cfg rest r.1
    (q.1, r.2 ++ q.2)

/-- The addresses handed to `kad_ping` among a list of calls, in order. -/
def pings : List Call → List IP
  | [] => []
  | Call.kad_ping a :: rest => a :: pings rest
  | _ :: rest => pings rest

/-- The text that follows the version in the probe: what is left of
`MAIN_VERSION` and of the three line ends after the format was cut at a NUL,
expanded, cut to the buffer and read back as a C string. -/
def probe_tail (V : List Char) (u : Nat) : List Char :=
  cstr ((format_u (cstr (V ++ "\r\n\r\n\r\n".toList)) u).take (454 - (fmt_u u).length))

/-- The payloads handed to `sendto` among a list of calls, in order. -/
def sends : List Call → List (List Char)
  | [] => []
  | Call.sendto payload :: rest => payload :: sends rest
  | _ :: rest => sends rest

/-- The wire format of the probe as the spec gives it (section 6): the request
line, the `Port` line with the port in decimal, the `Server` line, the
`Version` line and a double CRLF, every line ended by CRLF. The decimal
numeral is the one of the standard library (`Nat.repr`). -/
def wire_format (version : List Char) (port : Nat) : List Char :=
  "DHT-SEARCH * HTTP/1.0\r\n".toList ++ "Port: ".toList ++ (Nat.repr port).toList ++ "\r\n".toList
    ++ "Server: KadNode\r\n".toList ++ "Version: ".toList ++ version ++ "\r\n".toList
    ++ "\r\n\r\n".toList

/-! ## Concrete inputs used in the examples -/

/-- A multicast group address (IPv4, 239.192.152.143, port 6771). -/
def example_group : IP :=
  { ss_family := Family.AF_INET, port := (26, 115), rest := [239, 192, 152, 143] }

/-- A configuration: join requests of the modern kind, no interface name,
service port 6881. -/
def example_conf : Conf :=
  { modern := true, MAIN_VERSION := "2.0.1".toList, dht_ifce := none, dht_port := 6881,
    g_lpd_addr := example_group }

/-- A sender address A (IPv4, 192.168.1.7, source port 6771). -/
def example_sender : IP :=
  { ss_family := Family.AF_INET, port := (26, 115), rest := [192, 168, 1, 7] }

/-- The content of the local `c_addr` before a receive. -/
def example_c_addr0 : IP :=
  { ss_family := Family.other 0, port := (0, 0), rest := [] }

/-- The state right after a timer firing at time 0 that joined the group:
membership Joined, counter re-armed, next probe due at time 300. -/
def example_state : State :=
  { g_packet_limit := 100, g_mcast_registered := 1, g_mcast_time := 300 }

/-- The answers of the collaborators at time 10 while no peer is known, every
system call succeeds and `payload` from the sender A is waiting. -/
def example_env (payload : List Char) : Env :=
  { now := 10, nodes := 0, if_index := 1, ioctl_rc := 0, join_rc := 0, leave_rc := 0,
    send_rc := 0, datagram := some (payload, example_sender) }

/-- An invocation of the callback at time 10 with `payload` waiting. -/
def example_invocation (payload : List Char) : Invocation :=
  { rc := 1, c_addr0 := example_c_addr0, env := example_env payload }

/-- The address that the callback hands to `kad_ping` for an accepted datagram
`payload` from `sender` (lines 269-273). -/
def candidate (payload : List Char) (sender : IP) : IP :=
  (set_port sender (to_unsigned_short (parse_packet (cstr payload)))).1

/-- The candidates of the datagrams of a sequence of invocations, in order. -/
def candidates : List Invocation → List IP
  | [] => []
  | i :: rest =>
    match i.env.datagram with
    | some d => candidate d.1 d.2 :: candidates rest
    | none => candidates rest

/-- A valid probe reply as the spec gives it in its scenario. -/
def example_body : List Char :=
  "Port: 51413\r\nServer: X\r\nVersion: Y\r\n\r\n\r\n".toList

/-! ## Socket set-up -/

/-- The protocol level of a `setsockopt` request. -/
inductive Level where
  | IPPROTO_IP
  | IPPROTO_IPV6
deriving DecidableEq, Repr

/-- The socket options set while the sockets are created. -/
inductive SetupOpt where
  | IP_MULTICAST_TTL
  | IP_MULTICAST_LOOP
deriving DecidableEq, Repr

/-- A `setsockopt( sock, level, optname, &value, sizeof(value) )` request of
the socket set-up: its level, its option and the `int` it passes. -/
structure SockoptRequest where
  level : Level
  optname : SetupOpt
  value : Int
deriving DecidableEq, Repr

/-- What the collaborators answer while the two sockets are created: the
descriptors returned by `net_socket` and `net_bind` (net.c, not part of the
sources at hand) and the return values of the three `setsockopt` calls. -/
structure SetupEnv where
  net_socket_fd : Int
  net_bind_fd : Int
  ttl_rc : Int
  loop_send_rc : Int
  loop_recv_rc : Int
deriving DecidableEq, Repr

/-- Source: `multicast_disable_loop`, lines 279-291: the return value and the
request issued. The local `opt_off` is initialised to 1 (line 280); the local
`optname` holds the level. -/
def multicast_disable_loop (af : Family) (setsockopt_rc : Int) : Int × SockoptRequest :=
  let opt_off : Int := 1
  let optname := if af = Family.AF_INET then Level.IPPROTO_IP else Level.IPPROTO_IPV6
  let req : SockoptRequest :=
    { level := optname, optname := SetupOpt.IP_MULTICAST_LOOP, value := opt_off }
  if setsockopt_rc < 0 then (-1, req) else (0, req)

/-- Source: `create_send_socket`, lines 293-313: the descriptor returned (-1
on failure) and the requests issued, in order. -/
def create_send_socket (af : Family) (e : SetupEnv) : Int × List SockoptRequest :=
  let scope : Int := 1
  let sock_send := e.net_socket_fd
  let ttl : SockoptRequest :=
    { level := Level.IPPROTO_IP, optname := SetupOpt.IP_MULTICAST_TTL, value := scope }
  if e.ttl_rc < 0 then (-1, [ttl])
  else
    let l := multicast_disable_loop af e.loop_send_rc
    if l.1 < 0 then (-1, [ttl, l.2]) else (sock_send, [ttl, l.2])

/-- Source: `create_receive_socket`, lines 315-327: the descriptor returned
(-1 on failure) and the requests issued. -/
def create_receive_socket (af : Family) (e : SetupEnv) : Int × List SockoptRequest :=
  let sock_recv := e.net_bind_fd
  let l := multicast_disable_loop af e.loop_recv_rc
  if l.1 < 0 then (-1, [l.2]) else (sock_recv, [l.2])

/-- A set-up in which every call succeeds. -/
def example_setup : SetupEnv :=
  { net_socket_fd := 5, net_bind_fd := 6, ttl_rc := 0, loop_send_rc := 0, loop_recv_rc := 0 }

/-! ## Classification of calls -/

/-- Whether a call belongs to a join: the call of `mcast_join_group` itself or
one of the system calls it makes (lines 37-108). -/
def is_join_request : Call → Bool
  | Call.mcast_join_group => true
  | Call.if_nametoindex _ => true
  | Call.ioctl_SIOCGIFADDR _ => true
  | Call.setsockopt Sockopt.MCAST_JOIN_GROUP => true
  | Call.setsockopt Sockopt.IP_ADD_MEMBERSHIP => true
  | Call.setsockopt Sockopt.IPV6_JOIN_GROUP => true
  | _ => false

/-- Whether a call belongs to a leave: the call of `mcast_leave_group` itself
or the system call it makes (lines 110-151). -/
def is_leave_request : Call → Bool
  | Call.mcast_leave_group => true
  | Call.setsockopt Sockopt.MCAST_LEAVE_GROUP => true
  | Call.setsockopt Sockopt.IP_DROP_MEMBERSHIP => true
  | Call.setsockopt Sockopt.IPV6_LEAVE_GROUP => true
  | _ => false

/-- The libc function `ntohs` on the two bytes of a port field in memory: the
port number they stand for. -/
def ntohs (b : Nat × Nat) : Nat := b.1 * 256 + b.2

/-- Source: `bootstrap_handle_mcast`, lines 263-267, for the return value
`rc_recv` of the receive and the bytes `buf` it stored: `none` when the
datagram is dropped as oversized, otherwise the index of `buf` at which the
terminator is written and the C string that `buf` holds afterwards. -/
def terminate_buf (rc_recv : Int) (buf : List Char) : Option (Nat × List Char) :=
  if rc_recv ≥ 512 then none
  else some (rc_recv.toNat, cstr (buf.take rc_recv.toNat ++ [NUL]))

/-! ## The field lines of a message -/

/-- The request line of the probe (line 21), with its CRLF. -/
def request_line : List Char := "DHT-SEARCH * HTTP/1.0\r\n".toList

/-- The field line `Port: p`, with the port in decimal and its CRLF. -/
def port_line (p : Nat) : List Char :=
  "Port: ".toList ++ (Nat.repr p).toList ++ "\r\n".toList

/-- The field line `Server: s`, with its CRLF. -/
def server_line (s : List Char) : List Char :=
  "Server: ".toList ++ s ++ "\r\n".toList

/-- The field line `Version: v`, with its CRLF. -/
def version_line (v : List Char) : List Char :=
  "Version: ".toList ++ v ++ "\r\n".toList

/-- The candidates that a sequence of invocations hands to `kad_ping` when
every datagram is admitted: for each datagram that is shorter than the buffer
and decodes to a positive port, its candidate, in order. -/
def forwarded : List Invocation → List IP
  | [] => []
  | i :: rest =>
    match i.env.datagram with
    | some d =>
      if d.1.length < 512 ∧ 0 < parse_packet (cstr d.1) then candidate d.1 d.2 :: forwarded rest
      else forwarded rest
    | none => forwarded rest

/-! ## Lemmas on the codec and on the callback -/

theorem isdigit_digit_char (d : Nat) (h : d < 10) : isdigit (digit_char d) = true := by
  interval_cases d <;> decide

theorem digit_value_digit_char (d : Nat) (h : d < 10) : digit_value (digit_char d) = d := by
  interval_cases d <;> decide

theorem decimal_all_digits (w n : Nat) : ∀ c ∈ decimal w n, isdigit c = true := by
  induction w generalizing n with
  | zero => intro c hc; simp [decimal] at hc
  | succ w ih =>
    intro c hc
    unfold decimal at hc
    split at hc
    · simp at hc; subst hc; exact isdigit_digit_char n (by omega)
    · simp at hc
      rcases hc with hc | hc
      · exact ih _ c hc
      · subst hc; exact isdigit_digit_char _ (Nat.mod_lt _ (by norm_num))

theorem decimal_ne_nil (w n : Nat) : decimal (w + 1) n ≠ [] := by
  unfold decimal
  split <;> simp

theorem decimal_value_decimal (w n : Nat) (h : n < 10 ^ w) : decimal_value (decimal w n) = n := by
  induction w generalizing n with
  | zero => simp at h; subst h; simp [decimal, decimal_value]
  | succ w ih =>
    unfold decimal
    split
    · rename_i h10
      simp [decimal_value, digit_value_digit_char n h10]
    · have h1 : n / 10 < 10 ^ w := by
        rw [Nat.div_lt_iff_lt_mul (by norm_num)]
        rw [pow_succ] at h; exact h
      have := ih (n / 10) h1
      unfold decimal_value at this ⊢
      rw [List.foldl_append]
      simp only [List.foldl_cons, List.foldl_nil, this]
      rw [digit_value_digit_char _ (Nat.mod_lt _ (by norm_num))]
      omega

theorem isspace_of_isdigit (c : Char) (h : isdigit c = true) : isspace c = false := by
  by_contra hs
  have hs' : isspace c = true := by simpa using hs
  simp only [isspace, Bool.or_eq_true, beq_iff_eq] at hs'
  rcases hs' with ((((hs' | hs') | hs') | hs') | hs') | hs' <;> subst hs' <;> revert h <;> decide

theorem strstr_skip (D R t : List Char) (c0 : Char) (h : ∀ c ∈ D, c ≠ c0) :
    strstr (D ++ R) (c0 :: t) = strstr R (c0 :: t) := by
  induction D with
  | nil => rfl
  | cons d D ih =>
    have hd : d ≠ c0 := h d (by simp)
    have hd' : (c0 == d) = false := by simpa using fun e => hd e.symm
    simp only [List.cons_append, strstr, List.isPrefixOf_cons₂, hd', Bool.false_and]
    exact ih (fun c hc => h c (by simp [hc]))

theorem sscanf_d_decimal (n : Nat) (hn : n < 2 ^ 31) (r : Char) (R : List Char)
    (hr : isdigit r = false) (port : Int) :
    sscanf_d (fmt_u n ++ r :: R) port = (1, (n : Int)) := by
  have hne : fmt_u n ≠ [] := decimal_ne_nil 9 n
  have hall : ∀ c ∈ fmt_u n, isdigit c = true := decimal_all_digits 10 n
  have hval : decimal_value (fmt_u n) = n :=
    decimal_value_decimal 10 n (by norm_num at hn ⊢; omega)
  obtain ⟨c, cs, hcs⟩ := List.exists_cons_of_ne_nil hne
  have hc : isdigit c = true := hall c (by simp [hcs])
  have hsp : isspace c = false := isspace_of_isdigit c hc
  have hm : (c == '-') = false := by
    cases hx : (c == '-') with
    | false => rfl
    | true => rw [beq_iff_eq] at hx; subst hx; revert hc; decide
  have hp : (c == '+') = false := by
    cases hx : (c == '+') with
    | false => rfl
    | true => rw [beq_iff_eq] at hx; subst hx; revert hc; decide
  have htw : List.takeWhile isdigit (fmt_u n ++ r :: R) = fmt_u n := by
    rw [List.takeWhile_append_of_pos hall]
    simp [List.takeWhile, hr]
  unfold sscanf_d
  have hdw : List.dropWhile isspace (fmt_u n ++ r :: R) = c :: (cs ++ r :: R) := by
    rw [hcs]; simp [List.dropWhile, hsp]
  rw [hdw]
  simp only [hm, hp, Bool.or_self, Bool.false_eq_true, if_false]
  have e : c :: (cs ++ r :: R) = fmt_u n ++ r :: R := by rw [hcs]; rfl
  rw [e, htw]
  have hem : (fmt_u n).isEmpty = false := by rw [hcs]; rfl
  simp only [hem, Bool.false_eq_true, if_false, hval]
  congr 1
  unfold to_int strtol_clamp
  have : (n : Int) < 2 ^ 31 := by exact_mod_cast hn
  omega

theorem digit_ne_of_not_digit (D : List Char) (hall : ∀ c ∈ D, isdigit c = true) (c0 : Char)
    (h0 : isdigit c0 = false) : ∀ c ∈ D, c ≠ c0 := by
  intro c hc e
  rw [e] at hc
  have := hall c0 hc
  rw [h0] at this
  exact Bool.noConfusion this

theorem parse_packet_probe_shape (n : Nat) (hn : n < 2 ^ 31) (Z : List Char) :
    parse_packet ("DHT-SEARCH * HTTP/1.0\r\nPort: ".toList ++ (fmt_u n ++
      ("\r\nServer: KadNode\r\nVersion: ".toList ++ Z))) = (n : Int) := by
  have hall : ∀ c ∈ fmt_u n, isdigit c = true := decimal_all_digits 10 n
  have hS := strstr_skip (fmt_u n) ("\r\nServer: KadNode\r\nVersion: ".toList ++ Z)
    "erver: ".toList 'S' (digit_ne_of_not_digit _ hall 'S' (by decide))
  have hV := strstr_skip (fmt_u n) ("\r\nServer: KadNode\r\nVersion: ".toList ++ Z)
    "ersion: ".toList 'V' (digit_ne_of_not_digit _ hall 'V' (by decide))
  have hsc := sscanf_d_decimal n hn '\r' ("\nServer: KadNode\r\nVersion: ".toList ++ Z)
    (by decide) 0
  unfold parse_packet parse_packet_param
  simp only [String.toList, List.cons_append, List.nil_append] at hS hV hsc ⊢
  simp [strstr, hS, hV, hsc]

theorem cstr_append_of_no_nul (a b : List Char) (h : ∀ c ∈ a, c ≠ NUL) :
    cstr (a ++ b) = a ++ cstr b := by
  unfold cstr
  exact List.takeWhile_append_of_pos (fun c hc => by simpa using h c hc)

theorem cstr_eq_self (a : List Char) (h : ∀ c ∈ a, c ≠ NUL) : cstr a = a := by
  have := cstr_append_of_no_nul a [] h
  simpa [cstr] using this

theorem format_u_append_of_no_percent (a b : List Char) (arg : Nat) (h : ∀ c ∈ a, c ≠ '%') :
    format_u (a ++ b) arg = a ++ format_u b arg := by
  induction a with
  | nil => rfl
  | cons c a ih =>
    have hc : c ≠ '%' := h c (by simp)
    have ih' := ih (fun x hx => h x (by simp [hx]))
    rw [List.cons_append]
    cases hab : a ++ b with
    | nil =>
      have ha : a = [] := (List.append_eq_nil.mp hab).1
      have hb : b = [] := (List.append_eq_nil.mp hab).2
      subst ha; subst hb
      simp [format_u]
    | cons d r =>
      rw [hab] at ih'
      simp only [format_u, hc, false_and, if_false]
      rw [ih']
      simp

theorem decimal_length_le (w n : Nat) : (decimal w n).length ≤ w := by
  induction w generalizing n with
  | zero => simp [decimal]
  | succ w ih =>
    unfold decimal
    split
    · simp
    · have := ih (n / 10)
      simp only [List.length_append, List.length_singleton]
      omega

theorem ne_nul_of_isdigit (c : Char) (h : isdigit c = true) : c ≠ NUL := by
  intro e; subst e; revert h; decide

theorem probe_shape (V : List Char) (p : Int) :
    probe V p = "DHT-SEARCH * HTTP/1.0\r\nPort: ".toList ++ (fmt_u (to_unsigned p) ++
      ("\r\nServer: KadNode\r\nVersion: ".toList ++ probe_tail V (to_unsigned p))) := by
  generalize hu : to_unsigned p = u
  have hall : ∀ c ∈ fmt_u u, isdigit c = true := decimal_all_digits 10 u
  have hlen : (fmt_u u).length ≤ 10 := decimal_length_le 10 u
  have h1 : cstr (msg_fmt V) =
      "DHT-SEARCH * HTTP/1.0\r\nPort: ".toList ++ ('%' :: 'u' ::
        ("\r\nServer: KadNode\r\nVersion: ".toList ++ cstr (V ++ "\r\n\r\n\r\n".toList))) := by
    have e : msg_fmt V = "DHT-SEARCH * HTTP/1.0\r\nPort: %u\r\nServer: KadNode\r\nVersion: ".toList
        ++ (V ++ "\r\n\r\n\r\n".toList) := by
      simp [msg_fmt]
    rw [e, cstr_append_of_no_nul _ _ (by decide)]
    simp
  have h2 : format_u (cstr (msg_fmt V)) u =
      "DHT-SEARCH * HTTP/1.0\r\nPort: ".toList ++ (fmt_u u ++
        ("\r\nServer: KadNode\r\nVersion: ".toList ++
          format_u (cstr (V ++ "\r\n\r\n\r\n".toList)) u)) := by
    rw [h1, format_u_append_of_no_percent _ _ _ (by decide)]
    congr 1
    rw [show ∀ r : List Char, format_u ('%' :: 'u' :: r) u = fmt_u u ++ format_u r u from
      fun r => by simp [format_u]]
    rw [format_u_append_of_no_percent _ _ _ (by decide)]
  unfold probe snprintf
  rw [hu, h2]
  have t1 : ∀ X : List Char, List.take (512 - 1) ("DHT-SEARCH * HTTP/1.0\r\nPort: ".toList ++ X) =
      "DHT-SEARCH * HTTP/1.0\r\nPort: ".toList ++ List.take 482 X := by
    intro X
    rw [List.take_append_eq_append_take]
    congr 1
  have t2 : ∀ X : List Char, List.take 482 (fmt_u u ++ X) =
      fmt_u u ++ List.take (482 - (fmt_u u).length) X := by
    intro X
    rw [List.take_append_eq_append_take, List.take_of_length_le (by omega)]
  have t3 : ∀ X : List Char, List.take (482 - (fmt_u u).length)
      ("\r\nServer: KadNode\r\nVersion: ".toList ++ X) =
      "\r\nServer: KadNode\r\nVersion: ".toList ++ List.take (454 - (fmt_u u).length) X := by
    intro X
    rw [List.take_append_eq_append_take, List.take_of_length_le (by simp; omega)]
    congr 2
    simp
    omega
  rw [t1, t2, t3, cstr_append_of_no_nul _ _ (by decide),
    cstr_append_of_no_nul _ _ (fun c hc => ne_nul_of_isdigit c (hall c hc)),
    cstr_append_of_no_nul _ _ (by decide)]
  rfl

theorem pings_append (a b : List Call) : pings (a ++ b) = pings a ++ pings b := by
  induction a with
  | nil => rfl
  | cons c a ih => cases c <;> simp [pings, ih]

theorem mem_pings (a : IP) (t : List Call) : a ∈ pings t ↔ Call.kad_ping a ∈ t := by
  induction t with
  | nil => simp [pings]
  | cons c t ih => cases c <;> simp [pings, ih]

theorem join_pings (modern : Bool) (addr : IP) (ifce : Option (List Char)) (e : Env) :
    pings (mcast_join_group modern addr ifce e).2 = [] := by
  unfold mcast_join_group
  repeat' split
  all_goals rfl

theorem leave_pings (modern : Bool) (addr : IP) (e : Env) :
    pings (mcast_leave_group modern addr e).2 = [] := by
  unfold mcast_leave_group
  repeat' split
  all_goals rfl

theorem join_step_pings (cfg : Conf) (e : Env) (s : State) :
    pings (join_step cfg e s).2 = [] := by
  unfold join_step
  dsimp only
  split_ifs <;> simp [pings, join_pings]

theorem send_step_pings (cfg : Conf) (s : State) : pings (send_step cfg s) = [] := by
  unfold send_step
  split_ifs <;> rfl

theorem timer_step_idle (cfg : Conf) (e : Env) (s : State) (h : e.now < s.g_mcast_time) :
    timer_step cfg e s = (s, []) := by
  unfold timer_step
  rw [if_neg (by omega)]

theorem timer_step_due (cfg : Conf) (e : Env) (s : State) (h : s.g_mcast_time ≤ e.now) :
    (timer_step cfg e s).1.g_packet_limit = 5 * PACKET_LIMIT_MAX ∧
      (timer_step cfg e s).1.g_mcast_time = time_add_min e.now 5 := by
  unfold timer_step
  rw [if_pos h]
  exact ⟨rfl, rfl⟩

theorem timer_step_pings (cfg : Conf) (e : Env) (s : State) :
    pings (timer_step cfg e s).2 = [] := by
  unfold timer_step
  split_ifs <;> simp [pings, pings_append, join_step_pings, send_step_pings]

theorem idle_of_negative (cfg : Conf) (e : Env) (s : State)
    (h : (timer_step cfg e s).1.g_packet_limit < 0) : e.now < s.g_mcast_time := by
  by_contra hn
  have := (timer_step_due cfg e s (by omega)).1
  rw [this] at h
  exact absurd h (by decide)

theorem receive_step_refused (cfg : Conf) (e : Env) (rc : Int) (a : IP) (s : State)
    (d : List Char × IP) (hrc : 0 < rc) (hd : e.datagram = some d) (hl : s.g_packet_limit < 0) :
    receive_step cfg e rc a s =
      (if s.g_mcast_registered = 1 ∧ (mcast_leave_group cfg.modern cfg.g_lpd_addr e).1 = 0
        then { s with g_mcast_registered := 0 } else s,
       Call.recvfrom 512 :: (if s.g_mcast_registered = 1
        then Call.mcast_leave_group :: (mcast_leave_group cfg.modern cfg.g_lpd_addr e).2
        else [])) := by
  obtain ⟨payload, sender⟩ := d
  have h0 : ¬ ((min payload.length 512 : Nat) : Int) < 0 := by omega
  unfold receive_step
  rw [if_neg (by omega)]
  simp only [hd, recvfrom, h0, if_false, hl, if_true]
  split_ifs <;> simp_all

theorem receive_step_admitted (cfg : Conf) (e : Env) (rc : Int) (a : IP) (s : State)
    (payload : List Char) (sender : IP) (hrc : 0 < rc) (hd : e.datagram = some (payload, sender))
    (hl : 0 ≤ s.g_packet_limit) :
    receive_step cfg e rc a s =
      ({ s with g_packet_limit := s.g_packet_limit - 1 },
       Call.recvfrom 512 :: (if payload.length < 512 ∧ 0 < parse_packet (cstr payload)
        then [Call.kad_ping (set_port sender (to_unsigned_short (parse_packet (cstr payload)))).1]
        else [])) := by
  have h0 : ¬ ((min payload.length 512 : Nat) : Int) < 0 := by omega
  unfold receive_step
  rw [if_neg (by omega)]
  simp only [hd, recvfrom, h0, if_false, if_neg (not_lt.mpr hl)]
  by_cases hlen : payload.length < 512
  · have hm : min payload.length 512 = payload.length := by omega
    have ht : List.take (payload.length) (List.take 512 payload) = payload := by
      rw [List.take_take]; simp; omega
    have hge : ¬ ((min payload.length 512 : Nat) : Int) ≥ 512 := by omega
    rw [if_neg hge]
    simp only [hm, Int.toNat_ofNat, ht, hlen, true_and]
    split_ifs <;> simp_all
  · have hge : ((min payload.length 512 : Nat) : Int) ≥ 512 := by omega
    rw [if_pos hge]
    simp [hlen]

theorem strstr_occurs (str param r : List Char) (h : strstr str param = some r) :
    param <:+: str := by
  induction str with
  | nil =>
    unfold strstr at h
    split_ifs at h with he
    rw [List.isEmpty_iff] at he
    subst he
    exact List.nil_infix
  | cons c cs ih =>
    unfold strstr at h
    split_ifs at h with hp
    · exact (List.isPrefixOf_iff_prefix.mp hp).isInfix
    · exact (ih h).trans (List.suffix_cons c cs).isInfix

theorem parse_packet_param_occurs (str param r : List Char)
    (h : parse_packet_param str param = some r) : param <:+: str := by
  unfold parse_packet_param at h
  cases hs : strstr str param with
  | none => rw [hs] at h; cases h
  | some pos => exact strstr_occurs str param pos hs

theorem parse_packet_markers (str : List Char) (h : parse_packet str ≠ 0) :
    "Server: ".toList <:+: str ∧ "Version: ".toList <:+: str := by
  unfold parse_packet at h
  cases hP : parse_packet_param str "Port: ".toList with
  | none => rw [hP] at h; exact absurd rfl h
  | some beg =>
    rw [hP] at h
    dsimp only at h
    split_ifs at h
    · exact absurd rfl h
    · cases hS : parse_packet_param str "Server: ".toList with
      | none => rw [hS] at h; exact absurd rfl h
      | some b1 =>
        cases hV : parse_packet_param str "Version: ".toList with
        | none => rw [hS, hV] at h; exact absurd rfl h
        | some b2 =>
          exact ⟨parse_packet_param_occurs _ _ _ hS, parse_packet_param_occurs _ _ _ hV⟩

theorem cstr_occurs (param buf : List Char) (h : param <:+: cstr buf) : param <:+: buf :=
  h.trans (List.takeWhile_prefix _).isInfix

theorem receive_step_pings_valid (cfg : Conf) (e : Env) (rc : Int) (a : IP) (s : State)
    (x : IP) (hx : x ∈ pings (receive_step cfg e rc a s).2) :
    ∃ payload sender, e.datagram = some (payload, sender) ∧
      0 < parse_packet (cstr payload) := by
  by_cases hrc : 0 < rc
  · cases hd : e.datagram with
    | none =>
      unfold receive_step at hx
      rw [if_neg (by omega)] at hx
      simp [hd, recvfrom, pings] at hx
    | some d =>
      obtain ⟨payload, sender⟩ := d
      by_cases hl : 0 ≤ s.g_packet_limit
      · rw [receive_step_admitted cfg e rc a s payload sender hrc hd hl] at hx
        split_ifs at hx with hv
        · exact ⟨payload, sender, rfl, hv.2⟩
        · simp [pings] at hx
      · rw [receive_step_refused cfg e rc a s _ hrc hd (by omega)] at hx
        split_ifs at hx <;> simp [pings, leave_pings] at hx
  · unfold receive_step at hx
    rw [if_pos (by omega)] at hx
    simp [pings] at hx

theorem receive_step_calls_admitted (cfg : Conf) (e : Env) (rc : Int) (a : IP) (s : State)
    (hl : 0 ≤ s.g_packet_limit) :
    ∀ c ∈ (receive_step cfg e rc a s).2, c = Call.recvfrom 512 ∨ ∃ x, c = Call.kad_ping x := by
  intro c hc
  by_cases hrc : 0 < rc
  · cases hd : e.datagram with
    | none =>
      unfold receive_step at hc
      rw [if_neg (by omega)] at hc
      simp [hd, recvfrom] at hc
      exact Or.inl hc
    | some d =>
      obtain ⟨payload, sender⟩ := d
      rw [receive_step_admitted cfg e rc a s payload sender hrc hd hl] at hc
      split_ifs at hc
      · simp at hc
        rcases hc with hc | hc
        · exact Or.inl hc
        · exact Or.inr ⟨_, hc⟩
      · simp at hc
        exact Or.inl hc
  · unfold receive_step at hc
    rw [if_pos (by omega)] at hc
    simp at hc

theorem receive_step_time (cfg : Conf) (e : Env) (rc : Int) (a : IP) (s : State) :
    (receive_step cfg e rc a s).1.g_mcast_time = s.g_mcast_time := by
  unfold receive_step
  dsimp only
  split_ifs <;> rfl

theorem timer_step_gated (cfg : Conf) (e : Env) (s : State) (hdue : s.g_mcast_time ≤ e.now)
    (hn : e.nodes ≠ 0) :
    timer_step cfg e s =
      ({ s with g_packet_limit := 5 * PACKET_LIMIT_MAX, g_mcast_time := time_add_min e.now 5 },
        []) := by
  unfold timer_step
  rw [if_pos hdue, if_neg hn]

theorem digit_char_eq (d : Nat) (h : d < 10) : digit_char d = Nat.digitChar d := by
  interval_cases d <;> rfl

theorem toDigitsCore_eq_decimal (w : Nat) : ∀ (fuel n : Nat) (ds : List Char),
    0 < w → n < 10 ^ w → n < fuel → Nat.toDigitsCore 10 fuel n ds = decimal w n ++ ds := by
  induction w with
  | zero => intro fuel n ds h; omega
  | succ w ih =>
    intro fuel n ds _ hn hf
    obtain ⟨f, rfl⟩ : ∃ f, fuel = f + 1 := ⟨fuel - 1, by omega⟩
    unfold Nat.toDigitsCore decimal
    by_cases h10 : n < 10
    · have h0 : n / 10 = 0 := by omega
      have hm : n % 10 = n := by omega
      simp only [h0, if_true, h10, hm, digit_char_eq n h10, List.singleton_append]
    · have h0 : ¬ n / 10 = 0 := by omega
      have hw : 0 < w := by
        rcases Nat.eq_zero_or_pos w with h | h
        · subst h; omega
        · exact h
      have hlt : n / 10 < 10 ^ w := by
        rw [Nat.div_lt_iff_lt_mul (by norm_num)]
        rw [pow_succ] at hn; exact hn
      simp only [h0, if_false, h10]
      rw [ih f (n / 10) _ hw hlt (by omega), digit_char_eq _ (Nat.mod_lt _ (by norm_num))]
      simp

theorem fmt_u_eq_repr (n : Nat) (h : n < 2 ^ 32) : fmt_u n = (Nat.repr n).toList := by
  have h10 : n < 10 ^ 10 := by norm_num at h ⊢; omega
  have := toDigitsCore_eq_decimal 10 (n + 1) n [] (by norm_num) h10 (by omega)
  unfold fmt_u
  simp only [Nat.repr, Nat.toDigits, List.asString, String.toList, this, List.append_nil]

theorem sends_append (a b : List Call) : sends (a ++ b) = sends a ++ sends b := by
  induction a with
  | nil => rfl
  | cons c a ih => cases c <;> simp [sends, ih]

theorem join_sends (modern : Bool) (addr : IP) (ifce : Option (List Char)) (e : Env) :
    sends (mcast_join_group modern addr ifce e).2 = [] := by
  unfold mcast_join_group
  repeat' split
  all_goals rfl

theorem leave_sends (modern : Bool) (addr : IP) (e : Env) :
    sends (mcast_leave_group modern addr e).2 = [] := by
  unfold mcast_leave_group
  repeat' split
  all_goals rfl

theorem join_step_sends (cfg : Conf) (e : Env) (s : State) :
    sends (join_step cfg e s).2 = [] := by
  unfold join_step
  dsimp only
  split_ifs <;> simp [sends, join_sends]

theorem receive_step_sends (cfg : Conf) (e : Env) (rc : Int) (a : IP) (s : State) :
    sends (receive_step cfg e rc a s).2 = [] := by
  unfold receive_step
  dsimp only
  split_ifs <;> simp [sends, leave_sends]

theorem bootstrap_sends (cfg : Conf) (e : Env) (rc : Int) (a : IP) (s : State) :
    sends (bootstrap_handle_mcast cfg e rc a s).2 =
      if s.g_mcast_time ≤ e.now ∧ e.nodes = 0 ∧ (join_step cfg e s).1.g_mcast_registered = 1
      then [probe cfg.MAIN_VERSION cfg.dht_port] else [] := by
  unfold bootstrap_handle_mcast
  simp only [sends_append, receive_step_sends, List.append_nil]
  unfold timer_step
  by_cases h1 : s.g_mcast_time ≤ e.now
  · by_cases h2 : e.nodes = 0
    · simp only [h1, h2, if_true, true_and, sends_append, join_step_sends, List.nil_append]
      unfold send_step
      split_ifs <;> rfl
    · simp [h1, h2, sends]
  · simp [h1, sends]

theorem probe_eq_wire_format (V : List Char) (p : Int)
    (hnul : ∀ c ∈ V, c ≠ NUL) (hpc : ∀ c ∈ V, c ≠ '%') (h0 : 0 ≤ p) (h1 : p < 2 ^ 31)
    (hfit : (wire_format V p.toNat).length < 512) :
    probe V p = wire_format V p.toNat := by
  have hu : to_unsigned p = p.toNat := by
    unfold to_unsigned
    omega
  have hlt : p.toNat < 2 ^ 32 := by omega
  have hrepr := fmt_u_eq_repr p.toNat hlt
  rw [probe_shape, hu]
  have htail : probe_tail V p.toNat = V ++ "\r\n\r\n\r\n".toList := by
    unfold probe_tail
    have hn : ∀ c ∈ V ++ "\r\n\r\n\r\n".toList, c ≠ NUL := by
      intro c hc
      rcases List.mem_append.mp hc with hc | hc
      · exact hnul c hc
      · exact (by decide : ∀ x ∈ "\r\n\r\n\r\n".toList, x ≠ NUL) c hc
    have hf : format_u (V ++ "\r\n\r\n\r\n".toList) p.toNat = V ++ "\r\n\r\n\r\n".toList := by
      rw [format_u_append_of_no_percent _ _ _ hpc]
      simp [format_u]
    rw [cstr_eq_self _ hn, hf, List.take_of_length_le, cstr_eq_self _ hn]
    unfold wire_format at hfit
    rw [← hrepr] at hfit
    simp only [List.length_append, String.toList] at hfit ⊢
    simp only [List.length_cons, List.length_nil] at hfit ⊢
    omega
  rw [htail, hrepr]
  simp [wire_format]

theorem bootstrap_idle (cfg : Conf) (e : Env) (rc : Int) (a : IP) (s : State)
    (h : e.now < s.g_mcast_time) :
    bootstrap_handle_mcast cfg e rc a s = receive_step cfg e rc a s := by
  unfold bootstrap_handle_mcast
  rw [timer_step_idle cfg e s h]
  rfl

theorem receive_step_negative (cfg : Conf) (e : Env) (rc : Int) (a : IP) (s : State)
    (hl : s.g_packet_limit < 0) :
    pings (receive_step cfg e rc a s).2 = [] ∧
      (receive_step cfg e rc a s).1.g_packet_limit = s.g_packet_limit := by
  constructor
  · unfold receive_step
    dsimp only
    split_ifs <;> simp [pings, leave_pings]
  · unfold receive_step
    dsimp only
    split_ifs <;> rfl

theorem run_negative (cfg : Conf) (invs : List Invocation) : ∀ (s : State),
    s.g_packet_limit < 0 → (∀ i ∈ invs, i.env.now < s.g_mcast_time) →
    pings (run cfg invs s).2 = [] := by
  induction invs with
  | nil => intro s _ _; rfl
  | cons i rest ih =>
    intro s hl hidle
    have hi : i.env.now < s.g_mcast_time := hidle i (by simp)
    have hb := bootstrap_idle cfg i.env i.rc i.c_addr0 s hi
    have hn := receive_step_negative cfg i.env i.rc i.c_addr0 s hl
    have ht := receive_step_time cfg i.env i.rc i.c_addr0 s
    unfold run
    dsimp only
    rw [pings_append, hb, hn.1, List.nil_append]
    apply ih
    · rw [hn.2]; exact hl
    · intro j hj
      rw [ht]
      exact hidle j (by simp [hj])

theorem run_admitted (cfg : Conf) (t : Int) (invs : List Invocation) : ∀ (s : State),
    s.g_mcast_time = t →
    (∀ i ∈ invs, i.env.now < t ∧ 0 < i.rc ∧ ∃ payload A, i.env.datagram = some (payload, A) ∧
      payload.length < 512 ∧ 0 < parse_packet (cstr payload)) →
    (invs.length : Int) ≤ s.g_packet_limit + 1 →
    (run cfg invs s).1 = { s with g_packet_limit := s.g_packet_limit - invs.length } ∧
    pings (run cfg invs s).2 = candidates invs ∧
    (candidates invs).length = invs.length ∧
    ∀ c ∈ (run cfg invs s).2, c = Call.recvfrom 512 ∨ ∃ x, c = Call.kad_ping x := by
  induction invs with
  | nil =>
    intro s _ _ _
    refine ⟨by simp [run], rfl, rfl, ?_⟩
    intro c hc
    simp [run] at hc
  | cons i rest ih =>
    intro s hs hvalid hlen
    obtain ⟨hi, hrc, payload, A, hd, hpl, hpos⟩ := hvalid i (by simp)
    have hlen' : (rest.length : Int) + 1 ≤ s.g_packet_limit + 1 := by
      simpa using hlen
    have hb := bootstrap_idle cfg i.env i.rc i.c_addr0 s (by rw [hs]; exact hi)
    have ha := receive_step_admitted cfg i.env i.rc i.c_addr0 s payload A hrc hd (by omega)
    rw [if_pos ⟨hpl, hpos⟩] at ha
    obtain ⟨ih1, ih2, ih3, ih4⟩ := ih { s with g_packet_limit := s.g_packet_limit - 1 } hs
      (fun j hj => hvalid j (by simp [hj])) (by simp only []; omega)
    unfold run
    dsimp only
    rw [hb, ha]
    dsimp only
    refine ⟨?_, ?_, ?_, ?_⟩
    · rw [ih1]
      simp only [List.length_cons, Nat.cast_add, Nat.cast_one, State.mk.injEq, and_true, true_and]
      omega
    · rw [pings_append, ih2]
      simp [pings, candidates, hd, candidate]
    · simp [candidates, hd, ih3]
    · intro c hc
      rcases List.mem_append.mp hc with hc | hc
      · simp at hc
        rcases hc with hc | hc
        · exact Or.inl hc
        · exact Or.inr ⟨_, hc⟩
      · exact ih4 c hc

theorem example_valid (t : Int) (ht : 10 < t) (n : Nat) :
    ∀ i ∈ List.replicate n (example_invocation example_body),
      i.env.now < t ∧ 0 < i.rc ∧ ∃ payload A, i.env.datagram = some (payload, A) ∧
        payload.length < 512 ∧ 0 < parse_packet (cstr payload) := by
  intro i hi
  rw [List.eq_of_mem_replicate hi]
  exact ⟨ht, by decide, example_body, example_sender, rfl, by decide, by decide⟩

theorem leave_no_marker (modern : Bool) (addr : IP) (e : Env) :
    Call.mcast_leave_group ∉ (mcast_leave_group modern addr e).2 := by
  unfold mcast_leave_group
  repeat' split
  all_goals simp

theorem join_calls_all (modern : Bool) (addr : IP) (ifce : Option (List Char)) (e : Env) :
    ∀ c ∈ (mcast_join_group modern addr ifce e).2,
      is_join_request c = true ∧ is_leave_request c = false ∧ c ≠ Call.recvfrom 512 := by
  unfold mcast_join_group
  repeat' split
  all_goals simp [is_join_request, is_leave_request]

theorem leave_calls_all (modern : Bool) (addr : IP) (e : Env) :
    ∀ c ∈ (mcast_leave_group modern addr e).2,
      is_leave_request c = true ∧ is_join_request c = false := by
  unfold mcast_leave_group
  repeat' split
  all_goals simp [is_join_request, is_leave_request]

theorem join_step_eq (cfg : Conf) (e : Env) (s : State) :
    join_step cfg e s =
      (if s.g_mcast_registered = 0 ∧
          (mcast_join_group cfg.modern cfg.g_lpd_addr cfg.dht_ifce e).1 = 0
        then { s with g_mcast_registered := 1 } else s,
       if s.g_mcast_registered = 0
        then Call.mcast_join_group :: (mcast_join_group cfg.modern cfg.g_lpd_addr cfg.dht_ifce e).2
        else []) := by
  unfold join_step
  dsimp only
  split_ifs <;> simp_all

theorem timer_step_eq (cfg : Conf) (e : Env) (s : State) (hdue : s.g_mcast_time ≤ e.now) :
    timer_step cfg e s =
      ({ g_packet_limit := 5 * PACKET_LIMIT_MAX,
         g_mcast_registered :=
           if e.nodes = 0 ∧ s.g_mcast_registered = 0 ∧
              (mcast_join_group cfg.modern cfg.g_lpd_addr cfg.dht_ifce e).1 = 0
           then 1 else s.g_mcast_registered,
         g_mcast_time := time_add_min e.now 5 },
       if e.nodes = 0 then (join_step cfg e s).2 ++ send_step cfg (join_step cfg e s).1
       else []) := by
  unfold timer_step
  rw [if_pos hdue]
  by_cases hn : e.nodes = 0
  · simp only [hn, if_true, true_and]
    rw [join_step_eq]
    dsimp only
    split_ifs <;> rfl
  · simp only [hn, if_false, false_and]

theorem timer_step_calls (cfg : Conf) (e : Env) (s : State) :
    ∀ c ∈ (timer_step cfg e s).2,
      (is_join_request c = true ∧ s.g_mcast_registered = 0) ∨ ∃ p, c = Call.sendto p := by
  intro c hc
  by_cases hdue : s.g_mcast_time ≤ e.now
  · rw [timer_step_eq cfg e s hdue] at hc
    dsimp only at hc
    split_ifs at hc with hn
    · rcases List.mem_append.mp hc with h | h
      · rw [join_step_eq] at h
        dsimp only at h
        split_ifs at h with h0
        · rcases List.mem_cons.mp h with h | h
          · exact Or.inl ⟨by rw [h]; rfl, h0⟩
          · exact Or.inl ⟨(join_calls_all _ _ _ _ c h).1, h0⟩
        · simp at h
      · unfold send_step at h
        split_ifs at h
        · simp at h
          exact Or.inr ⟨_, h⟩
        · simp at h
    · simp at hc
  · rw [timer_step_idle cfg e s (by omega)] at hc
    simp at hc

theorem receive_step_nothing (cfg : Conf) (e : Env) (rc : Int) (a : IP) (s : State)
    (h : rc ≤ 0) : receive_step cfg e rc a s = (s, []) := by
  unfold receive_step
  rw [if_pos h]

theorem receive_step_failed (cfg : Conf) (e : Env) (rc : Int) (a : IP) (s : State)
    (hrc : 0 < rc) (hd : e.datagram = none) :
    receive_step cfg e rc a s = (s, [Call.recvfrom 512]) := by
  unfold receive_step
  rw [if_neg (by omega)]
  simp [hd, recvfrom]

theorem receive_step_registered (cfg : Conf) (e : Env) (rc : Int) (a : IP) (s : State) :
    (receive_step cfg e rc a s).1.g_mcast_registered =
      if 0 < rc ∧ e.datagram.isSome = true ∧ s.g_packet_limit < 0 ∧ s.g_mcast_registered = 1 ∧
          (mcast_leave_group cfg.modern cfg.g_lpd_addr e).1 = 0
      then 0 else s.g_mcast_registered := by
  by_cases hrc : 0 < rc
  · cases hd : e.datagram with
    | none => rw [receive_step_failed cfg e rc a s hrc hd]; simp
    | some d =>
      by_cases hl : s.g_packet_limit < 0
      · rw [receive_step_refused cfg e rc a s d hrc hd hl]
        dsimp only
        split_ifs <;> simp_all
      · rw [receive_step_admitted cfg e rc a s d.1 d.2 hrc hd (by omega)]
        simp [hl]
  · rw [receive_step_nothing cfg e rc a s (by omega)]
    simp [hrc]

theorem receive_step_limit (cfg : Conf) (e : Env) (rc : Int) (a : IP) (s : State) :
    (receive_step cfg e rc a s).1.g_packet_limit =
      if 0 < rc ∧ e.datagram.isSome = true ∧ 0 ≤ s.g_packet_limit
      then s.g_packet_limit - 1 else s.g_packet_limit := by
  by_cases hrc : 0 < rc
  · cases hd : e.datagram with
    | none => rw [receive_step_failed cfg e rc a s hrc hd]; simp
    | some d =>
      by_cases hl : s.g_packet_limit < 0
      · rw [(receive_step_negative cfg e rc a s hl).2, if_neg (by omega)]
      · rw [receive_step_admitted cfg e rc a s d.1 d.2 hrc hd (by omega)]
        simp [hrc, not_lt.mp hl]
  · rw [receive_step_nothing cfg e rc a s (by omega)]
    simp [hrc]

theorem receive_step_calls (cfg : Conf) (e : Env) (rc : Int) (a : IP) (s : State) :
    ∀ c ∈ (receive_step cfg e rc a s).2,
      c = Call.recvfrom 512 ∨ (∃ x, c = Call.kad_ping x) ∨
        (is_leave_request c = true ∧ s.g_mcast_registered = 1 ∧ s.g_packet_limit < 0 ∧
          0 < rc ∧ e.datagram.isSome = true) := by
  intro c hc
  by_cases hl : 0 ≤ s.g_packet_limit
  · rcases receive_step_calls_admitted cfg e rc a s hl c hc with h | h
    · exact Or.inl h
    · exact Or.inr (Or.inl h)
  · by_cases hrc : 0 < rc
    · cases hd : e.datagram with
      | none =>
        rw [receive_step_failed cfg e rc a s hrc hd] at hc
        simp at hc
        exact Or.inl hc
      | some d =>
        rw [receive_step_refused cfg e rc a s d hrc hd (by omega)] at hc
        dsimp only at hc
        rcases List.mem_cons.mp hc with h | h
        · exact Or.inl h
        · split_ifs at h with h1
          · refine Or.inr (Or.inr ⟨?_, h1, by omega, hrc, rfl⟩)
            rcases List.mem_cons.mp h with h | h
            · rw [h]; rfl
            · exact (leave_calls_all _ _ _ c h).1
          · simp at h
    · rw [receive_step_nothing cfg e rc a s (by omega)] at hc
      simp at hc

theorem receive_step_leave_marker (cfg : Conf) (e : Env) (rc : Int) (a : IP) (s : State)
    (hrc : 0 < rc) (hd : e.datagram.isSome = true) (hl : s.g_packet_limit < 0)
    (h1 : s.g_mcast_registered = 1) :
    Call.mcast_leave_group ∈ (receive_step cfg e rc a s).2 := by
  obtain ⟨d, hd'⟩ := Option.isSome_iff_exists.mp hd
  rw [receive_step_refused cfg e rc a s d hrc hd' hl, if_pos h1]
  simp

theorem bootstrap_eq (cfg : Conf) (e : Env) (rc : Int) (a : IP) (s : State) :
    bootstrap_handle_mcast cfg e rc a s =
      ((receive_step cfg e rc a (timer_step cfg e s).1).1,
        (timer_step cfg e s).2 ++ (receive_step cfg e rc a (timer_step cfg e s).1).2) := rfl

theorem run_invariant (cfg : Conf) (P : State → Prop)
    (hP : ∀ (e : Env) (rc : Int) (a : IP) (s : State),
      P s → P (bootstrap_handle_mcast cfg e rc a s).1) :
    ∀ (invs : List Invocation) (s : State), P s → P (run cfg invs s).1 := by
  intro invs
  induction invs with
  | nil => intro s hs; exact hs
  | cons i rest ih =>
    intro s hs
    unfold run
    dsimp only
    exact ih _ (hP i.env i.rc i.c_addr0 s hs)

theorem timer_step_registered (cfg : Conf) (e : Env) (s : State) :
    (timer_step cfg e s).1.g_mcast_registered =
      if s.g_mcast_time ≤ e.now ∧ e.nodes = 0 ∧ s.g_mcast_registered = 0 ∧
          (mcast_join_group cfg.modern cfg.g_lpd_addr cfg.dht_ifce e).1 = 0
      then 1 else s.g_mcast_registered := by
  by_cases hdue : s.g_mcast_time ≤ e.now
  · rw [timer_step_eq cfg e s hdue]
    simp [hdue]
  · rw [timer_step_idle cfg e s (by omega)]
    simp [hdue]

theorem timer_step_limit (cfg : Conf) (e : Env) (s : State) :
    (timer_step cfg e s).1.g_packet_limit =
      if s.g_mcast_time ≤ e.now then 5 * PACKET_LIMIT_MAX else s.g_packet_limit := by
  by_cases hdue : s.g_mcast_time ≤ e.now
  · rw [(timer_step_due cfg e s hdue).1, if_pos hdue]
  · rw [timer_step_idle cfg e s (by omega), if_neg hdue]

theorem join_marker_mem (cfg : Conf) (e : Env) (rc : Int) (a : IP) (s : State) :
    Call.mcast_join_group ∈ (bootstrap_handle_mcast cfg e rc a s).2 ↔
      s.g_mcast_time ≤ e.now ∧ e.nodes = 0 ∧ s.g_mcast_registered = 0 := by
  rw [bootstrap_eq]
  dsimp only
  rw [List.mem_append]
  constructor
  · rintro (h | h)
    · by_cases hdue : s.g_mcast_time ≤ e.now
      · rw [timer_step_eq cfg e s hdue] at h
        dsimp only at h
        split_ifs at h with hn
        · rcases timer_step_calls cfg e s _ (by
            rw [timer_step_eq cfg e s hdue]; dsimp only; rw [if_pos hn]; exact h) with h' | ⟨p, h'⟩
          · exact ⟨hdue, hn, h'.2⟩
          · cases h'
        · simp at h
      · rw [timer_step_idle cfg e s (by omega)] at h
        simp at h
    · rcases receive_step_calls cfg e rc a _ _ h with h' | ⟨x, h'⟩ | h'
      · cases h'
      · cases h'
      · exact absurd h'.1 (by decide)
  · rintro ⟨hdue, hn, h0⟩
    left
    rw [timer_step_eq cfg e s hdue]
    dsimp only
    rw [if_pos hn, join_step_eq]
    dsimp only
    rw [if_pos h0]
    simp


theorem join_not_leave (c : Call) (h : is_join_request c = true) : is_leave_request c = false := by
  cases c with
  | setsockopt o => cases o <;> first | rfl | exact absurd h Bool.false_ne_true
  | _ => first | rfl | exact absurd h Bool.false_ne_true

theorem leave_not_join (c : Call) (h : is_leave_request c = true) : is_join_request c = false := by
  cases c with
  | setsockopt o => cases o <;> first | rfl | exact absurd h Bool.false_ne_true
  | _ => first | rfl | exact absurd h Bool.false_ne_true

theorem bootstrap_time (cfg : Conf) (e : Env) (rc : Int) (a : IP) (s : State) :
    (bootstrap_handle_mcast cfg e rc a s).1.g_mcast_time =
      if s.g_mcast_time ≤ e.now then time_add_min e.now 5 else s.g_mcast_time := by
  rw [bootstrap_eq]
  dsimp only
  rw [receive_step_time]
  by_cases hdue : s.g_mcast_time ≤ e.now
  · rw [(timer_step_due cfg e s hdue).2, if_pos hdue]
  · rw [timer_step_idle cfg e s (by omega), if_neg hdue]

theorem bootstrap_limit (cfg : Conf) (e : Env) (rc : Int) (a : IP) (s : State) :
    (bootstrap_handle_mcast cfg e rc a s).1.g_packet_limit =
      if 0 < rc ∧ e.datagram.isSome = true ∧ 0 ≤ (timer_step cfg e s).1.g_packet_limit
      then (timer_step cfg e s).1.g_packet_limit - 1
      else (timer_step cfg e s).1.g_packet_limit := by
  rw [bootstrap_eq]
  exact receive_step_limit cfg e rc a _

theorem cstr_append_nul (a : List Char) : cstr (a ++ [NUL]) = cstr a := by
  unfold cstr
  induction a with
  | nil => decide
  | cons c a ih =>
    simp only [List.cons_append, List.takeWhile_cons, ih]

theorem receive_step_admitted_buf (cfg : Conf) (e : Env) (rc : Int) (a : IP) (s : State)
    (payload : List Char) (sender : IP) (hrc : 0 < rc)
    (hd : e.datagram = some (payload, sender)) (hl : 0 ≤ s.g_packet_limit) :
    receive_step cfg e rc a s =
      ({ s with g_packet_limit := s.g_packet_limit - 1 },
       Call.recvfrom 512 ::
        (match terminate_buf (recvfrom e.datagram 512 a).1 (recvfrom e.datagram 512 a).2.1 with
         | none => []
         | some w =>
           if 0 < parse_packet w.2
           then [Call.kad_ping (set_port sender (to_unsigned_short (parse_packet w.2))).1]
           else [])) := by
  rw [receive_step_admitted cfg e rc a s payload sender hrc hd hl]
  simp only [hd, recvfrom, terminate_buf]
  by_cases hlen : payload.length < 512
  · have hm : min payload.length 512 = payload.length := by omega
    have ht : List.take (payload.length) (List.take 512 payload) = payload := by
      rw [List.take_take]; simp; omega
    have hge : ¬ ((payload.length : Nat) : Int) ≥ 512 := by omega
    simp only [hm, if_neg hge, Int.toNat_ofNat, ht, cstr_append_nul, hlen, true_and]
  · have hm : min payload.length 512 = 512 := by omega
    simp only [hm, hlen, false_and, if_false]
    rfl


theorem prefix_of_prefix_append_cons (x R : List Char) (r : Char) :
    ∀ needle : List Char, r ∉ needle → needle <+: x ++ r :: R → needle <+: x := by
  induction x with
  | nil =>
    intro needle hr h
    cases needle with
    | nil => exact List.nil_prefix
    | cons n ns =>
      rw [List.nil_append, List.cons_prefix_cons] at h
      exact absurd (List.mem_cons.mpr (Or.inl h.1.symm)) hr
  | cons c x ih =>
    intro needle hr h
    cases needle with
    | nil => exact List.nil_prefix
    | cons n ns =>
      rw [List.cons_append, List.cons_prefix_cons] at h
      rw [List.cons_prefix_cons]
      exact ⟨h.1, ih ns (fun hm => hr (List.mem_cons_of_mem _ hm)) h.2⟩

theorem strstr_skip_text (x R needle : List Char) (r : Char) (hr : r ∉ needle)
    (hx : ¬ needle <:+: x) : strstr (x ++ r :: R) needle = strstr (r :: R) needle := by
  induction x with
  | nil => rfl
  | cons c x ih =>
    have hpre : needle.isPrefixOf (c :: (x ++ r :: R)) = false := by
      cases hp : needle.isPrefixOf (c :: (x ++ r :: R)) with
      | false => rfl
      | true =>
        have h1 : needle <+: (c :: x) ++ r :: R := List.isPrefixOf_iff_prefix.mp hp
        exact absurd (prefix_of_prefix_append_cons (c :: x) R r needle hr h1).isInfix hx
    rw [List.cons_append]
    unfold strstr
    rw [hpre]
    simp only [Bool.false_eq_true, if_false]
    exact ih (fun h => hx (h.trans (List.suffix_cons c x).isInfix))

theorem strstr_found (str needle : List Char) (hne : needle ≠ []) (h : needle <+: str) :
    strstr str needle = some str := by
  cases str with
  | nil =>
    have : needle = [] := List.prefix_nil.mp h
    exact absurd this hne
  | cons c cs =>
    unfold strstr
    rw [if_pos (List.isPrefixOf_iff_prefix.mpr h)]

theorem strstr_of_occurs (str needle : List Char) (h : needle <:+: str) :
    ∃ r, strstr str needle = some r := by
  induction str with
  | nil =>
    have hn : needle = [] := List.infix_nil.mp h
    subst hn
    exact ⟨[], rfl⟩
  | cons c cs ih =>
    unfold strstr
    by_cases hp : needle.isPrefixOf (c :: cs) = true
    · exact ⟨c :: cs, by rw [if_pos hp]⟩
    · rw [if_neg hp]
      rcases List.infix_cons_iff.mp h with h' | h'
      · exact absurd (List.isPrefixOf_iff_prefix.mpr h') hp
      · exact ih h'

theorem parse_packet_param_of_occurs (str needle : List Char) (h : needle <:+: str) :
    ∃ r, parse_packet_param str needle = some r := by
  obtain ⟨r, hr⟩ := strstr_of_occurs str needle h
  exact ⟨r.drop needle.length, by unfold parse_packet_param; rw [hr]⟩

theorem parse_packet_of_first_port (str R : List Char) (n : Nat) (hn : n < 2 ^ 31)
    (hP : strstr str "Port: ".toList = some ("Port: ".toList ++ (fmt_u n ++ '\r' :: R)))
    (hS : "Server: ".toList <:+: str) (hV : "Version: ".toList <:+: str) :
    parse_packet str = (n : Int) := by
  obtain ⟨rs, hrs⟩ := parse_packet_param_of_occurs str _ hS
  obtain ⟨rv, hrv⟩ := parse_packet_param_of_occurs str _ hV
  have hpp : parse_packet_param str "Port: ".toList = some (fmt_u n ++ '\r' :: R) := by
    unfold parse_packet_param
    rw [hP]
    rfl
  have hsc := sscanf_d_decimal n hn '\r' R (by decide) 0
  unfold parse_packet
  rw [hpp]
  dsimp only
  rw [hsc, hrs, hrv]
  simp

theorem skip_request_line (R : List Char) :
    strstr (request_line ++ R) "Port: ".toList = strstr R "Port: ".toList := by
  simp [request_line, strstr]

theorem skip_server_line (s R : List Char) (hs : ¬ "Port: ".toList <:+: s) :
    strstr (server_line s ++ R) "Port: ".toList = strstr R "Port: ".toList := by
  have e : server_line s ++ R = "Server: ".toList ++ (s ++ '\r' :: ("\n".toList ++ R)) := by
    simp [server_line]
  have hP : "Port: ".toList = 'P' :: "ort: ".toList := rfl
  rw [hP] at hs ⊢
  rw [e, strstr_skip "Server: ".toList _ "ort: ".toList 'P' (by decide),
    strstr_skip_text s _ ('P' :: "ort: ".toList) '\r' (by decide) hs]
  exact strstr_skip "\r\n".toList R "ort: ".toList 'P' (by decide)

theorem skip_version_line (v R : List Char) (hv : ¬ "Port: ".toList <:+: v) :
    strstr (version_line v ++ R) "Port: ".toList = strstr R "Port: ".toList := by
  have e : version_line v ++ R = "Version: ".toList ++ (v ++ '\r' :: ("\n".toList ++ R)) := by
    simp [version_line]
  have hP : "Port: ".toList = 'P' :: "ort: ".toList := rfl
  rw [hP] at hv ⊢
  rw [e, strstr_skip "Version: ".toList _ "ort: ".toList 'P' (by decide),
    strstr_skip_text v _ ('P' :: "ort: ".toList) '\r' (by decide) hv]
  exact strstr_skip "\r\n".toList R "ort: ".toList 'P' (by decide)

theorem first_port_line (n : Nat) (s v : List Char) (hs : ¬ "Port: ".toList <:+: s)
    (hv : ¬ "Port: ".toList <:+: v) (tail : List Char) :
    ∀ lines : List (List Char),
      (∀ l ∈ lines, l = port_line n ∨ l = server_line s ∨ l = version_line v) →
      port_line n ∈ lines →
      ∃ R, strstr (lines.flatten ++ tail) "Port: ".toList = some (port_line n ++ R) := by
  intro lines
  induction lines with
  | nil => intro _ h; simp at h
  | cons l rest ih =>
    intro hall hmem
    have hrest : ∀ x ∈ rest, x = port_line n ∨ x = server_line s ∨ x = version_line v :=
      fun x hx => hall x (List.mem_cons_of_mem _ hx)
    have hflat : (l :: rest).flatten ++ tail = l ++ (rest.flatten ++ tail) := by
      simp
    rw [hflat]
    rcases hall l (List.mem_cons_self _ _) with h | h | h
    · refine ⟨rest.flatten ++ tail, ?_⟩
      rw [h]
      apply strstr_found _ _ (by decide)
      unfold port_line
      rw [List.append_assoc, List.append_assoc]
      exact List.prefix_append _ _
    · have hm : port_line n ∈ rest := by
        rcases List.mem_cons.mp hmem with h' | h'
        · rw [h] at h'
          have : (port_line n).head? = (server_line s).head? := by rw [h']
          simp [port_line, server_line] at this
        · exact h'
      rw [h, skip_server_line s _ hs]
      exact ih hrest hm
    · have hm : port_line n ∈ rest := by
        rcases List.mem_cons.mp hmem with h' | h'
        · rw [h] at h'
          have : (port_line n).head? = (version_line v).head? := by rw [h']
          simp [port_line, version_line] at this
        · exact h'
      rw [h, skip_version_line v _ hv]
      exact ih hrest hm

theorem run_cons (cfg : Conf) (i : Invocation) (rest : List Invocation) (s : State) :
    run cfg (i :: rest) s =
      ((run cfg rest (bootstrap_handle_mcast cfg i.env i.rc i.c_addr0 s).1).1,
        (bootstrap_handle_mcast cfg i.env i.rc i.c_addr0 s).2 ++
          (run cfg rest (bootstrap_handle_mcast cfg i.env i.rc i.c_addr0 s).1).2) := rfl

theorem run_append (cfg : Conf) (a b : List Invocation) : ∀ (s : State),
    run cfg (a ++ b) s =
      ((run cfg b (run cfg a s).1).1, (run cfg a s).2 ++ (run cfg b (run cfg a s).1).2) := by
  induction a with
  | nil => intro s; simp [run]
  | cons i rest ih =>
    intro s
    rw [List.cons_append, run_cons, run_cons, ih]
    simp

theorem run_received (cfg : Conf) (t : Int) (invs : List Invocation) : ∀ (s : State),
    s.g_mcast_time = t →
    (∀ i ∈ invs, i.env.now < t ∧ 0 < i.rc ∧ i.env.datagram.isSome = true) →
    (invs.length : Int) ≤ s.g_packet_limit + 1 →
    (run cfg invs s).1 = { s with g_packet_limit := s.g_packet_limit - invs.length } ∧
    pings (run cfg invs s).2 = forwarded invs ∧
    ∀ c ∈ (run cfg invs s).2, c = Call.recvfrom 512 ∨ ∃ x, c = Call.kad_ping x := by
  induction invs with
  | nil =>
    intro s _ _ _
    refine ⟨by simp [run], rfl, ?_⟩
    intro c hc
    simp [run] at hc
  | cons i rest ih =>
    intro s hs hrecv hlen
    obtain ⟨hi, hrc, hsome⟩ := hrecv i (by simp)
    obtain ⟨d, hd⟩ := Option.isSome_iff_exists.mp hsome
    have hlen' : (rest.length : Int) + 1 ≤ s.g_packet_limit + 1 := by
      simpa using hlen
    have hb := bootstrap_idle cfg i.env i.rc i.c_addr0 s (by rw [hs]; exact hi)
    have ha := receive_step_admitted cfg i.env i.rc i.c_addr0 s d.1 d.2 hrc hd (by omega)
    obtain ⟨ih1, ih2, ih3⟩ := ih { s with g_packet_limit := s.g_packet_limit - 1 } hs
      (fun j hj => hrecv j (by simp [hj])) (by simp only []; omega)
    unfold run
    dsimp only
    rw [hb, ha]
    dsimp only
    refine ⟨?_, ?_, ?_⟩
    · rw [ih1]
      simp only [List.length_cons, Nat.cast_add, Nat.cast_one, State.mk.injEq, and_true, true_and]
      omega
    · rw [pings_append, ih2]
      simp only [forwarded, hd]
      split_ifs <;> simp [pings, candidate]
    · intro c hc
      rcases List.mem_append.mp hc with hc | hc
      · rcases List.mem_cons.mp hc with hc | hc
        · exact Or.inl hc
        · split_ifs at hc
          · simp at hc
            exact Or.inr ⟨_, hc⟩
          · simp at hc
      · exact ih3 c hc

theorem example_received (t : Int) (ht : 10 < t) (n : Nat) :
    ∀ i ∈ List.replicate n (example_invocation example_body),
      i.env.now < t ∧ 0 < i.rc ∧ i.env.datagram.isSome = true := by
  intro i hi
  rw [List.eq_of_mem_replicate hi]
  exact ⟨ht, by decide, rfl⟩

theorem refused_invocation (cfg : Conf) (e : Env) (rc : Int) (a : IP) (s : State)
    (d : List Char × IP) (hrc : 0 < rc) (hd : e.datagram = some d)
    (hneg : (timer_step cfg e s).1.g_packet_limit < 0) :
    (∀ d' : List Char × IP,
      bootstrap_handle_mcast cfg { e with datagram := some d' } rc a s =
        bootstrap_handle_mcast cfg e rc a s) ∧
    pings (bootstrap_handle_mcast cfg e rc a s).2 = [] ∧
    (bootstrap_handle_mcast cfg e rc a s).1.g_packet_limit = s.g_packet_limit := by
  have hidle : e.now < s.g_mcast_time := idle_of_negative cfg e s hneg
  have hl : s.g_packet_limit < 0 := by
    rw [timer_step_idle cfg e s hidle] at hneg
    exact hneg
  have hb := bootstrap_idle cfg e rc a s hidle
  have hr := receive_step_refused cfg e rc a s d hrc hd hl
  refine ⟨?_, ?_, ?_⟩
  · intro d'
    rw [hb, bootstrap_idle cfg { e with datagram := some d' } rc a s hidle, hr,
      receive_step_refused cfg { e with datagram := some d' } rc a s d' hrc rfl hl]
    rfl
  · rw [hb]
    exact (receive_step_negative cfg e rc a s hl).1
  · rw [hb]
    exact (receive_step_negative cfg e rc a s hl).2

theorem run_idle_not_joined (cfg : Conf) (invs : List Invocation) : ∀ (s : State),
    s.g_mcast_registered = 0 → (∀ i ∈ invs, i.env.now < s.g_mcast_time) →
    (run cfg invs s).1.g_mcast_registered = 0 := by
  induction invs with
  | nil => intro s h _; exact h
  | cons i rest ih =>
    intro s h0 hidle
    have hi : i.env.now < s.g_mcast_time := hidle i (by simp)
    have hb := bootstrap_idle cfg i.env i.rc i.c_addr0 s hi
    rw [run_cons]
    dsimp only
    apply ih
    · rw [hb, receive_step_registered, h0]
      split_ifs <;> rfl
    · intro j hj
      rw [hb, receive_step_time]
      exact hidle j (by simp [hj])

theorem join_success_issues (modern : Bool) (addr : IP) (ifce : Option (List Char)) (e : Env)
    (h : (mcast_join_group modern addr ifce e).1 = 0) :
    Call.setsockopt Sockopt.MCAST_JOIN_GROUP ∈ (mcast_join_group modern addr ifce e).2 ∨
    Call.setsockopt Sockopt.IP_ADD_MEMBERSHIP ∈ (mcast_join_group modern addr ifce e).2 ∨
    Call.setsockopt Sockopt.IPV6_JOIN_GROUP ∈ (mcast_join_group modern addr ifce e).2 := by
  revert h
  unfold mcast_join_group
  repeat' split
  all_goals simp

theorem leave_success_issues (modern : Bool) (addr : IP) (e : Env)
    (h : (mcast_leave_group modern addr e).1 = 0) :
    Call.setsockopt Sockopt.MCAST_LEAVE_GROUP ∈ (mcast_leave_group modern addr e).2 ∨
    Call.setsockopt Sockopt.IP_DROP_MEMBERSHIP ∈ (mcast_leave_group modern addr e).2 ∨
    Call.setsockopt Sockopt.IPV6_LEAVE_GROUP ∈ (mcast_leave_group modern addr e).2 := by
  revert h
  unfold mcast_leave_group
  repeat' split
  all_goals simp

theorem leave_request_only_over_budget (cfg : Conf) (e : Env) (rc : Int) (a : IP) (s : State)
    (c : Call) (hc : c ∈ (bootstrap_handle_mcast cfg e rc a s).2)
    (hl : is_leave_request c = true) :
    0 < rc ∧ e.datagram.isSome = true ∧ e.now < s.g_mcast_time ∧ s.g_packet_limit < 0 ∧
      s.g_mcast_registered = 1 := by
  rw [bootstrap_eq] at hc
  rcases List.mem_append.mp hc with h | h
  · rcases timer_step_calls cfg e s c h with h' | ⟨p, h'⟩
    · rw [join_not_leave c h'.1] at hl
      exact absurd hl Bool.false_ne_true
    · rw [h'] at hl
      exact absurd hl Bool.false_ne_true
  · rcases receive_step_calls cfg e rc a _ c h with h' | ⟨x, h'⟩ | h'
    · rw [h'] at hl
      exact absurd hl Bool.false_ne_true
    · rw [h'] at hl
      exact absurd hl Bool.false_ne_true
    · have hidle := idle_of_negative cfg e s h'.2.2.1
      have ht := timer_step_idle cfg e s hidle
      rw [ht] at h'
      exact ⟨h'.2.2.2.1, h'.2.2.2.2, hidle, h'.2.2.1, h'.2.1⟩

theorem unjoin_only_over_budget (cfg : Conf) (e : Env) (rc : Int) (a : IP) (s : State)
    (h1 : s.g_mcast_registered = 1)
    (hne : (bootstrap_handle_mcast cfg e rc a s).1.g_mcast_registered ≠ 1) :
    0 < rc ∧ e.datagram.isSome = true ∧ e.now < s.g_mcast_time ∧ s.g_packet_limit < 0 ∧
      (mcast_leave_group cfg.modern cfg.g_lpd_addr e).1 = 0 := by
  have ht : (timer_step cfg e s).1.g_mcast_registered = 1 := by
    rw [timer_step_registered, if_neg, h1]
    intro h
    rw [h1] at h
    exact absurd h.2.2.1 (by decide)
  rw [bootstrap_eq] at hne
  dsimp only at hne
  rw [receive_step_registered] at hne
  split_ifs at hne with hc
  · have hidle := idle_of_negative cfg e s hc.2.2.1
    have hs := timer_step_idle cfg e s hidle
    rw [hs] at hc
    exact ⟨hc.1, hc.2.1, hidle, hc.2.2.1, hc.2.2.2.2⟩
  · exact absurd ht hne

/-! ## The claims -/

/-- C1. Round trip: for every port `p` with `1 ≤ p ≤ 65535`, `parse_packet`
applied to the probe that the callback builds from `msg_fmt` and `p` (line
221) returns exactly `p`, for every version text without `%` that
`MAIN_VERSION` may stand for, also one so long that the probe is cut to the
buffer. -/
theorem C1_round_trip (MAIN_VERSION : List Char) (p : Int)
    (_hV : ∀ c ∈ MAIN_VERSION, c ≠ '%') (h1 : 1 ≤ p) (h2 : p ≤ 65535) :
    parse_packet (probe MAIN_VERSION p) = p := by
  have hu : ((to_unsigned p : Nat) : Int) = p := by
    unfold to_unsigned
    omega
  have hlt : to_unsigned p < 2 ^ 31 := by
    unfold to_unsigned
    omega
  rw [probe_shape, parse_packet_probe_shape _ hlt, hu]

/-- C1, at a concrete input: version text `2.0.1`, port 6881. -/
theorem C1_round_trip_witness :
    (∀ c ∈ "2.0.1".toList, c ≠ '%') ∧ (1 : Int) ≤ 6881 ∧ (6881 : Int) ≤ 65535 ∧
      parse_packet (probe "2.0.1".toList 6881) = 6881 :=
  ⟨by decide, by decide, by decide,
    C1_round_trip "2.0.1".toList 6881 (by decide) (by decide) (by decide)⟩

/-- C2. A datagram whose `Port: ` field holds 70000, outside `[1, 65535]`, is
not rejected: `parse_packet` returns 70000, the callback accepts it and hands
the sender address with port 70000 mod 65536 = 4464 to `kad_ping`. A port
field of 0 is rejected. -/
theorem C2_port_70000_forwarded :
    parse_packet "Port: 70000\r\nServer: X\r\nVersion: Y\r\n\r\n\r\n".toList = 70000 ∧
    pings (bootstrap_handle_mcast example_conf
      (example_env "Port: 70000\r\nServer: X\r\nVersion: Y\r\n\r\n\r\n".toList) 1
      example_c_addr0 example_state).2 = [{ example_sender with port := htons 4464 }] ∧
    parse_packet "Port: 0\r\nServer: X\r\nVersion: Y\r\n\r\n\r\n".toList = 0 := by
  decide

/-- C3. Missing marker rejection: for every message that does not contain
`Server: ` or does not contain `Version: `, `parse_packet` returns 0 whatever
the `Port: ` field holds, and a callback that receives the message as a
datagram calls `kad_ping` for no address. -/
theorem C3_missing_marker (msg : List Char)
    (h : ¬ "Server: ".toList <:+: msg ∨ ¬ "Version: ".toList <:+: msg) :
    parse_packet msg = 0 ∧
    ∀ (cfg : Conf) (e : Env) (rc : Int) (c_addr0 sender : IP) (s : State),
      e.datagram = some (msg, sender) →
      pings (bootstrap_handle_mcast cfg e rc c_addr0 s).2 = [] := by
  have key : ∀ m : List Char, (¬ "Server: ".toList <:+: m ∨ ¬ "Version: ".toList <:+: m) →
      parse_packet m = 0 := by
    intro m hm
    by_contra hne
    have := parse_packet_markers m hne
    tauto
  refine ⟨key msg h, ?_⟩
  intro cfg e rc c_addr0 sender s hd
  unfold bootstrap_handle_mcast
  simp only [pings_append, timer_step_pings, List.nil_append]
  rw [List.eq_nil_iff_forall_not_mem]
  intro x hx
  obtain ⟨payload, sender', hd', hpos⟩ := receive_step_pings_valid _ _ _ _ _ x hx
  rw [hd] at hd'
  simp only [Option.some.injEq, Prod.mk.injEq] at hd'
  obtain ⟨hm, -⟩ := hd'
  subst hm
  have : parse_packet (cstr msg) = 0 := by
    apply key
    rcases h with h | h
    · exact Or.inl (fun hi => h (cstr_occurs _ _ hi))
    · exact Or.inr (fun hi => h (cstr_occurs _ _ hi))
  omega

/-- C3, at a concrete input: a message with a well-formed port and a
`Server: ` line but no `Version: ` line. -/
theorem C3_missing_marker_witness :
    (¬ "Server: ".toList <:+: "Port: 6881\r\nServer: X\r\n\r\n".toList ∨
      ¬ "Version: ".toList <:+: "Port: 6881\r\nServer: X\r\n\r\n".toList) ∧
    parse_packet "Port: 6881\r\nServer: X\r\n\r\n".toList = 0 ∧
    pings (bootstrap_handle_mcast example_conf
      (example_env "Port: 6881\r\nServer: X\r\n\r\n".toList) 1 example_c_addr0
      example_state).2 = [] :=
  have hyp : ¬ "Server: ".toList <:+: "Port: 6881\r\nServer: X\r\n\r\n".toList ∨
      ¬ "Version: ".toList <:+: "Port: 6881\r\nServer: X\r\n\r\n".toList :=
    Or.inr (by decide)
  ⟨hyp, (C3_missing_marker _ hyp).1,
    (C3_missing_marker _ hyp).2 example_conf _ 1 example_c_addr0 example_sender example_state rfl⟩

/-- C4, as stated, fails: from a freshly reset limiter (counter 100 =
`5 * PACKET_LIMIT_MAX`) and with no reset in between, 100 received datagrams
bring the counter to 0; the 101st received datagram, the (5C+1)-th, is not
refused but admitted: it is decoded and its candidate is handed to `kad_ping`,
and the counter becomes -1. Only the 102nd received datagram is refused. -/
theorem C4_datagram_101_admitted :
    (run example_conf (List.replicate 100 (example_invocation example_body))
      example_state).1 = { g_packet_limit := 0, g_mcast_registered := 1, g_mcast_time := 300 } ∧
    bootstrap_handle_mcast example_conf (example_env example_body) 1 example_c_addr0
      { g_packet_limit := 0, g_mcast_registered := 1, g_mcast_time := 300 } =
      ({ g_packet_limit := -1, g_mcast_registered := 1, g_mcast_time := 300 },
        [Call.recvfrom 512, Call.kad_ping
          { ss_family := Family.AF_INET, port := (200, 213), rest := [192, 168, 1, 7] }]) ∧
    bootstrap_handle_mcast example_conf (example_env example_body) 1 example_c_addr0
      { g_packet_limit := -1, g_mcast_registered := 1, g_mcast_time := 300 } =
      ({ g_packet_limit := -1, g_mcast_registered := 0, g_mcast_time := 300 },
        [Call.recvfrom 512, Call.mcast_leave_group,
          Call.setsockopt Sockopt.MCAST_LEAVE_GROUP]) := by
  refine ⟨?_, by decide, by decide⟩
  have h := (run_admitted example_conf 300 _ example_state rfl
    (example_valid 300 (by decide) 100) (by decide)).1
  rw [h]
  decide

/-- C4, amended: starting from a freshly reset limiter (counter
`5 * PACKET_LIMIT_MAX` = 100) and with no reset in between, every received
datagram up to the (5C+1)-th, the 101st, is admitted: each decrements the
counter by one, the valid ones among them are handed to `kad_ping`, and no
leave request is made. After 101 received datagrams the counter is -1 and the
next received datagram, the (5C+2)-th, is refused: it is not decoded, nothing
is forwarded and the counter stays -1. -/
theorem C4_rate_limit (cfg : Conf) (s : State) (invs : List Invocation) (next : Invocation)
    (hreset : s.g_packet_limit = 5 * PACKET_LIMIT_MAX)
    (hrecv : ∀ i ∈ invs, i.env.now < s.g_mcast_time ∧ 0 < i.rc ∧ i.env.datagram.isSome = true)
    (hlen : invs.length ≤ 101)
    (hnext : next.env.now < s.g_mcast_time ∧ 0 < next.rc ∧ next.env.datagram.isSome = true) :
    ((run cfg invs s).1.g_packet_limit = 5 * PACKET_LIMIT_MAX - invs.length ∧
      pings (run cfg invs s).2 = forwarded invs ∧
      ∀ c ∈ (run cfg invs s).2, is_leave_request c = false) ∧
    (invs.length = 101 →
      (run cfg invs s).1.g_packet_limit = -1 ∧
      (bootstrap_handle_mcast cfg next.env next.rc next.c_addr0
        (run cfg invs s).1).1.g_packet_limit = -1 ∧
      pings (bootstrap_handle_mcast cfg next.env next.rc next.c_addr0 (run cfg invs s).1).2
        = [] ∧
      ∀ d : List Char × IP,
        bootstrap_handle_mcast cfg { next.env with datagram := some d } next.rc next.c_addr0
          (run cfg invs s).1 =
        bootstrap_handle_mcast cfg next.env next.rc next.c_addr0 (run cfg invs s).1) := by
  have hmax : (5 : Int) * PACKET_LIMIT_MAX = 100 := by decide
  have hl : (invs.length : Int) ≤ s.g_packet_limit + 1 := by
    rw [hreset, hmax]
    omega
  obtain ⟨h1, h2, h3⟩ := run_received cfg s.g_mcast_time invs s rfl hrecv hl
  have hlim : (run cfg invs s).1.g_packet_limit = 5 * PACKET_LIMIT_MAX - invs.length := by
    rw [h1, hreset]
  refine ⟨⟨hlim, h2, ?_⟩, ?_⟩
  · intro c hc
    rcases h3 c hc with h | ⟨x, h⟩ <;> rw [h] <;> rfl
  · intro h101
    have hneg : (run cfg invs s).1.g_packet_limit = -1 := by
      rw [hlim, hmax, h101]
      rfl
    have htime : (run cfg invs s).1.g_mcast_time = s.g_mcast_time := by rw [h1]
    obtain ⟨d0, hd0⟩ := Option.isSome_iff_exists.mp hnext.2.2
    have hts : (timer_step cfg next.env (run cfg invs s).1).1.g_packet_limit < 0 := by
      rw [timer_step_idle cfg next.env _ (by rw [htime]; exact hnext.1), hneg]
      decide
    have h9 := refused_invocation cfg next.env next.rc next.c_addr0 (run cfg invs s).1 d0 hnext.2.1 hd0 hts
    exact ⟨hneg, by rw [h9.2.2, hneg], h9.2.1, h9.1⟩

/-- C4 amended, at a concrete input: 101 datagrams after the reset at time 0,
and a 102nd one. -/
theorem C4_rate_limit_witness :
    (run example_conf (List.replicate 101 (example_invocation example_body))
      example_state).1.g_packet_limit = -1 ∧
    pings (bootstrap_handle_mcast example_conf (example_invocation example_body).env
      (example_invocation example_body).rc (example_invocation example_body).c_addr0
      (run example_conf (List.replicate 101 (example_invocation example_body))
        example_state).1).2 = [] :=
  have h := (C4_rate_limit example_conf example_state
    (List.replicate 101 (example_invocation example_body)) (example_invocation example_body)
    (by decide) (example_received 300 (by decide) 101) (by simp)
    ⟨by decide, by decide, rfl⟩).2 (by simp)
  ⟨h.1, h.2.2.1⟩

/-- C5. Candidate forwarding: when a datagram shorter than the receive buffer
arrives from an IPv4 or IPv6 sender `A`, is admitted by the rate limiter and
its body decodes to a port `p` in `[1, 65535]`, the callback calls `kad_ping`
exactly once, with the address `A` whose port field was replaced by `p` in
network byte order (high byte first) and whose other fields are those of
`A`. -/
theorem C5_candidate_forwarding (cfg : Conf) (e : Env) (rc : Int) (c_addr0 : IP) (s : State)
    (payload : List Char) (A : IP) (p : Int)
    (hrc : 0 < rc) (hd : e.datagram = some (payload, A)) (hlen : payload.length < 512)
    (hadm : 0 ≤ (timer_step cfg e s).1.g_packet_limit)
    (hfam : A.ss_family = Family.AF_INET ∨ A.ss_family = Family.AF_INET6)
    (hp : parse_packet (cstr payload) = p) (h1 : 1 ≤ p) (h2 : p ≤ 65535) :
    pings (bootstrap_handle_mcast cfg e rc c_addr0 s).2 =
      [{ ss_family := A.ss_family, port := (p.toNat / 256, p.toNat % 256), rest := A.rest }] := by
  unfold bootstrap_handle_mcast
  simp only [pings_append, timer_step_pings, List.nil_append]
  rw [receive_step_admitted cfg e rc c_addr0 _ payload A hrc hd hadm]
  rw [if_pos ⟨hlen, by omega⟩, hp]
  have hu : to_unsigned_short p = p.toNat := by
    unfold to_unsigned_short
    omega
  have hh : htons p.toNat = (p.toNat / 256, p.toNat % 256) := by
    unfold htons
    congr 1
    omega
  rcases hfam with hfam | hfam <;> simp [pings, set_port, hfam, hu, hh]

/-- C5, at a concrete input: the body
`Port: 51413\r\nServer: X\r\nVersion: Y\r\n\r\n\r\n` received from `A` makes the
callback hand `A` with port 51413 (bytes 200 and 213) to `kad_ping`. -/
theorem C5_candidate_forwarding_witness :
    pings (bootstrap_handle_mcast example_conf
      (example_env "Port: 51413\r\nServer: X\r\nVersion: Y\r\n\r\n\r\n".toList) 1
      example_c_addr0 example_state).2 =
      [{ ss_family := Family.AF_INET, port := (200, 213), rest := [192, 168, 1, 7] }] :=
  C5_candidate_forwarding example_conf
    (example_env "Port: 51413\r\nServer: X\r\nVersion: Y\r\n\r\n\r\n".toList) 1
    example_c_addr0 example_state "Port: 51413\r\nServer: X\r\nVersion: Y\r\n\r\n\r\n".toList
    example_sender 51413 (by decide) rfl (by decide) (by decide) (Or.inl rfl) (by decide)
    (by decide) (by decide)

/-- C6. Probe gating: in an invocation in which the probe timer is due and the
overlay reports a non-zero peer count, the timer part of the callback makes no
call at all, and the whole invocation neither calls `mcast_join_group` nor
sends a probe nor issues any system call of a membership request, whatever the
membership flag is. -/
theorem C6_probe_gating (cfg : Conf) (e : Env) (rc : Int) (c_addr0 : IP) (s : State)
    (hdue : s.g_mcast_time ≤ e.now) (hn : e.nodes ≠ 0) :
    (timer_step cfg e s).2 = [] ∧
    Call.mcast_join_group ∉ (bootstrap_handle_mcast cfg e rc c_addr0 s).2 ∧
    (∀ payload, Call.sendto payload ∉ (bootstrap_handle_mcast cfg e rc c_addr0 s).2) ∧
    (∀ opt, Call.setsockopt opt ∉ (bootstrap_handle_mcast cfg e rc c_addr0 s).2) := by
  have ht := timer_step_gated cfg e s hdue hn
  have hcalls : ∀ c ∈ (bootstrap_handle_mcast cfg e rc c_addr0 s).2,
      c = Call.recvfrom 512 ∨ ∃ x, c = Call.kad_ping x := by
    unfold bootstrap_handle_mcast
    rw [ht]
    simp only [List.nil_append]
    exact receive_step_calls_admitted cfg e rc c_addr0 _
      (by show (0 : Int) ≤ 5 * PACKET_LIMIT_MAX; decide)
  refine ⟨by rw [ht], ?_, ?_, ?_⟩
  · intro h
    rcases hcalls _ h with h' | ⟨x, h'⟩ <;> cases h'
  · intro payload h
    rcases hcalls _ h with h' | ⟨x, h'⟩ <;> cases h'
  · intro opt h
    rcases hcalls _ h with h' | ⟨x, h'⟩ <;> cases h'

/-- C6, at a concrete input: the timer is due at time 400 and three peers are
known while the membership flag is 0. -/
theorem C6_probe_gating_witness :
    (timer_step example_conf { example_env [] with now := 400, nodes := 3 } lpd_setup).2 = [] ∧
    Call.mcast_join_group ∉ (bootstrap_handle_mcast example_conf
      { example_env [] with now := 400, nodes := 3 } 1 example_c_addr0 lpd_setup).2 ∧
    (∀ payload, Call.sendto payload ∉ (bootstrap_handle_mcast example_conf
      { example_env [] with now := 400, nodes := 3 } 1 example_c_addr0 lpd_setup).2) ∧
    (∀ opt, Call.setsockopt opt ∉ (bootstrap_handle_mcast example_conf
      { example_env [] with now := 400, nodes := 3 } 1 example_c_addr0 lpd_setup).2) :=
  C6_probe_gating example_conf { example_env [] with now := 400, nodes := 3 } 1
    example_c_addr0 lpd_setup (by decide) (by decide)

/-- C7. Wire format: for every configured service port `p` whose message fits
the 512-byte buffer, the probe built by the callback is exactly
`DHT-SEARCH * HTTP/1.0\r\nPort: ` + decimal(p) + `\r\nServer: KadNode\r\nVersion: `
+ `MAIN_VERSION` + `\r\n\r\n\r\n`; an invocation sends that byte string and
nothing else, once, exactly when the timer is due, no peer is known and the
membership flag is 1 after the join step, and not at all otherwise. The
encoding is a function of the port and of the version text only. -/
theorem C7_wire_format (cfg : Conf) (e : Env) (rc : Int) (c_addr0 : IP) (s : State)
    (hnul : ∀ c ∈ cfg.MAIN_VERSION, c ≠ NUL) (hpc : ∀ c ∈ cfg.MAIN_VERSION, c ≠ '%')
    (h0 : 0 ≤ cfg.dht_port) (h1 : cfg.dht_port < 2 ^ 31)
    (hfit : (wire_format cfg.MAIN_VERSION cfg.dht_port.toNat).length < 512) :
    probe cfg.MAIN_VERSION cfg.dht_port = wire_format cfg.MAIN_VERSION cfg.dht_port.toNat ∧
    sends (bootstrap_handle_mcast cfg e rc c_addr0 s).2 =
      (if s.g_mcast_time ≤ e.now ∧ e.nodes = 0 ∧ (join_step cfg e s).1.g_mcast_registered = 1
       then [wire_format cfg.MAIN_VERSION cfg.dht_port.toNat] else []) := by
  have hp := probe_eq_wire_format cfg.MAIN_VERSION cfg.dht_port hnul hpc h0 h1 hfit
  refine ⟨hp, ?_⟩
  rw [bootstrap_sends, hp]

/-- C7, at a concrete input: service port 6881, version text `2.0.1`, first
invocation after set-up at time 10 with no peer known: the join succeeds and
the probe sent has the line `Port: 6881`. -/
theorem C7_wire_format_witness :
    probe "2.0.1".toList 6881 =
      "DHT-SEARCH * HTTP/1.0\r\nPort: 6881\r\nServer: KadNode\r\nVersion: 2.0.1\r\n\r\n\r\n".toList ∧
    sends (bootstrap_handle_mcast example_conf (example_env []) 0 example_c_addr0 lpd_setup).2 =
      ["DHT-SEARCH * HTTP/1.0\r\nPort: 6881\r\nServer: KadNode\r\nVersion: 2.0.1\r\n\r\n\r\n".toList] :=
  have h := C7_wire_format example_conf (example_env []) 0 example_c_addr0 lpd_setup
    (by decide) (by decide) (by decide) (by decide) (by decide)
  ⟨h.1.trans (by decide), h.2.trans (by decide)⟩

/-- C8. Unconditional re-arm: in every invocation in which the probe timer is
due, after the timer step the rate counter is `5 * PACKET_LIMIT_MAX` (100) and
the next-due time is the current time plus 5 minutes (300 seconds), for every
peer count, membership state and outcome of the join and of the send; the
next-due time is still that at the end of the invocation. -/
theorem C8_unconditional_rearm (cfg : Conf) (e : Env) (rc : Int) (c_addr0 : IP) (s : State)
    (hdue : s.g_mcast_time ≤ e.now) :
    (timer_step cfg e s).1.g_packet_limit = 5 * PACKET_LIMIT_MAX ∧
    (timer_step cfg e s).1.g_packet_limit = 100 ∧
    (timer_step cfg e s).1.g_mcast_time = e.now + 300 ∧
    (bootstrap_handle_mcast cfg e rc c_addr0 s).1.g_mcast_time = e.now + 300 := by
  have h := timer_step_due cfg e s hdue
  have ht : time_add_min e.now 5 = e.now + 300 := by
    unfold time_add_min
    norm_num
  refine ⟨h.1, by rw [h.1]; rfl, by rw [h.2, ht], ?_⟩
  unfold bootstrap_handle_mcast
  dsimp only
  rw [receive_step_time, h.2, ht]

/-- C8, at a concrete input: the timer is due at time 400, three peers are
known, so that no probe is sent. -/
theorem C8_unconditional_rearm_witness :
    (timer_step example_conf { example_env [] with now := 400, nodes := 3 }
      example_state).1.g_packet_limit = 5 * PACKET_LIMIT_MAX ∧
    (timer_step example_conf { example_env [] with now := 400, nodes := 3 }
      example_state).1.g_packet_limit = 100 ∧
    (timer_step example_conf { example_env [] with now := 400, nodes := 3 }
      example_state).1.g_mcast_time = 400 + 300 ∧
    (bootstrap_handle_mcast example_conf { example_env [] with now := 400, nodes := 3 } 0
      example_c_addr0 example_state).1.g_mcast_time = 400 + 300 :=
  C8_unconditional_rearm example_conf { example_env [] with now := 400, nodes := 3 } 0
    example_c_addr0 example_state (by decide)

/-- C9. Over-budget handling: in every invocation in which a datagram is
received while the rate counter is negative, the callback makes the same
calls and reaches the same state whatever the datagram holds (it does not
decode it), hands no candidate to `kad_ping` and leaves the counter unchanged;
after the receive it calls `mcast_leave_group`, once, exactly when the
membership flag is 1, and the flag becomes 0 exactly when that call returns
0. From the state it leaves, no later invocation hands a candidate to
`kad_ping` as long as the probe timer does not fire. -/
theorem C9_over_budget (cfg : Conf) (e : Env) (rc : Int) (c_addr0 : IP) (s : State)
    (d : List Char × IP) (hrc : 0 < rc) (hd : e.datagram = some d)
    (hneg : (timer_step cfg e s).1.g_packet_limit < 0) :
    (∀ d' : List Char × IP,
      bootstrap_handle_mcast cfg { e with datagram := some d' } rc c_addr0 s =
        bootstrap_handle_mcast cfg e rc c_addr0 s) ∧
    pings (bootstrap_handle_mcast cfg e rc c_addr0 s).2 = [] ∧
    (bootstrap_handle_mcast cfg e rc c_addr0 s).1.g_packet_limit = s.g_packet_limit ∧
    (bootstrap_handle_mcast cfg e rc c_addr0 s).2 =
      Call.recvfrom 512 :: (if s.g_mcast_registered = 1
        then Call.mcast_leave_group :: (mcast_leave_group cfg.modern cfg.g_lpd_addr e).2
        else []) ∧
    (Call.mcast_leave_group ∈ (bootstrap_handle_mcast cfg e rc c_addr0 s).2 ↔
      s.g_mcast_registered = 1) ∧
    (bootstrap_handle_mcast cfg e rc c_addr0 s).1.g_mcast_registered =
      (if s.g_mcast_registered = 1 ∧ (mcast_leave_group cfg.modern cfg.g_lpd_addr e).1 = 0
        then 0 else s.g_mcast_registered) ∧
    ∀ later : List Invocation,
      (∀ i ∈ later, i.env.now < (bootstrap_handle_mcast cfg e rc c_addr0 s).1.g_mcast_time) →
      pings (run cfg later (bootstrap_handle_mcast cfg e rc c_addr0 s).1).2 = [] := by
  have hidle : e.now < s.g_mcast_time := idle_of_negative cfg e s hneg
  have hl : s.g_packet_limit < 0 := by
    rw [timer_step_idle cfg e s hidle] at hneg
    exact hneg
  have hb := bootstrap_idle cfg e rc c_addr0 s hidle
  have hr := receive_step_refused cfg e rc c_addr0 s d hrc hd hl
  refine ⟨?_, ?_, ?_, ?_, ?_, ?_, ?_⟩
  · intro d'
    rw [hb, bootstrap_idle cfg { e with datagram := some d' } rc c_addr0 s hidle, hr,
      receive_step_refused cfg { e with datagram := some d' } rc c_addr0 s d' hrc rfl hl]
    rfl
  · rw [hb]
    exact (receive_step_negative cfg e rc c_addr0 s hl).1
  · rw [hb]
    exact (receive_step_negative cfg e rc c_addr0 s hl).2
  · rw [hb, hr]
  · rw [hb, hr]
    have := leave_no_marker cfg.modern cfg.g_lpd_addr e
    split_ifs <;> simp_all
  · rw [hb, hr]
    dsimp only
    split_ifs <;> simp_all
  · intro later hlater
    apply run_negative
    · rw [hb, (receive_step_negative cfg e rc c_addr0 s hl).2]
      exact hl
    · exact hlater

/-- C9, at a concrete input: a datagram arrives at time 10 while the counter is
-1 and the membership flag is 1; the leave succeeds, and two further datagrams
in the same window are not forwarded. -/
theorem C9_over_budget_witness :
    pings (bootstrap_handle_mcast example_conf (example_env example_body) 1 example_c_addr0
      { g_packet_limit := -1, g_mcast_registered := 1, g_mcast_time := 300 }).2 = [] ∧
    (bootstrap_handle_mcast example_conf (example_env example_body) 1 example_c_addr0
      { g_packet_limit := -1, g_mcast_registered := 1, g_mcast_time := 300 }).1
        = { g_packet_limit := -1, g_mcast_registered := 0, g_mcast_time := 300 } ∧
    pings (run example_conf (List.replicate 2 (example_invocation example_body))
      (bootstrap_handle_mcast example_conf (example_env example_body) 1 example_c_addr0
        { g_packet_limit := -1, g_mcast_registered := 1, g_mcast_time := 300 }).1).2 = [] :=
  have h := C9_over_budget example_conf (example_env example_body) 1 example_c_addr0
    { g_packet_limit := -1, g_mcast_registered := 1, g_mcast_time := 300 }
    (example_body, example_sender) (by decide) rfl (by decide)
  ⟨h.2.1, by decide, h.2.2.2.2.2.2 _ (by decide)⟩

/-- C10, as stated, fails: with `PACKET_LIMIT_MAX = 20`, in a window that
starts Joined with the counter re-armed (to 100), the first 20 valid datagrams
leave the counter at 80, and the 21st valid datagram is forwarded to
`kad_ping` without any call of `mcast_leave_group`; membership stays Joined.
The same holds right after set-up, where the first invocation fires the timer,
joins the group and re-arms the counter before it receives. -/
theorem C10_datagram_21_forwarded :
    (run example_conf (List.replicate 20 (example_invocation example_body)) example_state).1 =
      { g_packet_limit := 80, g_mcast_registered := 1, g_mcast_time := 300 } ∧
    bootstrap_handle_mcast example_conf (example_env example_body) 1 example_c_addr0
      { g_packet_limit := 80, g_mcast_registered := 1, g_mcast_time := 300 } =
      ({ g_packet_limit := 79, g_mcast_registered := 1, g_mcast_time := 300 },
        [Call.recvfrom 512, Call.kad_ping
          { ss_family := Family.AF_INET, port := (200, 213), rest := [192, 168, 1, 7] }]) ∧
    (run example_conf (List.replicate 20 (example_invocation example_body)) lpd_setup).1 =
      { g_packet_limit := 80, g_mcast_registered := 1, g_mcast_time := 310 } ∧
    bootstrap_handle_mcast example_conf (example_env example_body) 1 example_c_addr0
      { g_packet_limit := 80, g_mcast_registered := 1, g_mcast_time := 310 } =
      ({ g_packet_limit := 79, g_mcast_registered := 1, g_mcast_time := 310 },
        [Call.recvfrom 512, Call.kad_ping
          { ss_family := Family.AF_INET, port := (200, 213), rest := [192, 168, 1, 7] }]) := by
  refine ⟨?_, by decide, ?_, by decide⟩
  · have h := (run_admitted example_conf 300 _ example_state rfl
      (example_valid 300 (by decide) 20) (by decide)).1
    rw [h]
    decide
  · have h1 : bootstrap_handle_mcast example_conf (example_invocation example_body).env
        (example_invocation example_body).rc (example_invocation example_body).c_addr0
        lpd_setup =
        ({ g_packet_limit := 99, g_mcast_registered := 1, g_mcast_time := 310 },
          [Call.mcast_join_group, Call.setsockopt Sockopt.MCAST_JOIN_GROUP,
            Call.sendto (probe example_conf.MAIN_VERSION example_conf.dht_port),
            Call.recvfrom 512, Call.kad_ping (candidate example_body example_sender)]) := by
      decide
    have h := (run_admitted example_conf 310 _
      { g_packet_limit := 99, g_mcast_registered := 1, g_mcast_time := 310 } rfl
      (example_valid 310 (by decide) 19) (by decide)).1
    show (run example_conf (example_invocation example_body ::
      List.replicate 19 (example_invocation example_body)) lpd_setup).1 = _
    unfold run
    dsimp only
    rw [h1]
    dsimp only
    rw [h]
    decide

/-- C10, amended: with `PACKET_LIMIT_MAX = 20` the limiter is re-armed to 100
and admits 101 datagrams. When 102 valid datagrams arrive after a reset with
no timer firing between them, while membership is Joined and the leave
succeeds: after any number `k` of the first 101 all `k` have been forwarded,
membership is still Joined and `mcast_leave_group` has not been called; the
102nd datagram makes the callback call `mcast_leave_group` and membership
becomes NotJoined; no candidate is forwarded for the 102nd datagram or for any
later datagram as long as the timer does not fire, so the whole flood forwards
exactly the first 101 candidates, and membership stays NotJoined. -/
theorem C10_flood_102 (cfg : Conf) (s : State) (first : List Invocation) (i : Invocation)
    (later : List Invocation)
    (hreset : s.g_packet_limit = 5 * PACKET_LIMIT_MAX) (hjoined : s.g_mcast_registered = 1)
    (hvalid : ∀ j ∈ first, j.env.now < s.g_mcast_time ∧ 0 < j.rc ∧
      ∃ payload A, j.env.datagram = some (payload, A) ∧ payload.length < 512 ∧
        0 < parse_packet (cstr payload))
    (hlen : first.length = 101)
    (hi : i.env.now < s.g_mcast_time ∧ 0 < i.rc ∧ i.env.datagram.isSome = true)
    (hleave : (mcast_leave_group cfg.modern cfg.g_lpd_addr i.env).1 = 0)
    (hlater : ∀ j ∈ later, j.env.now < s.g_mcast_time) :
    (∀ k : Nat,
      pings (run cfg (first.take k) s).2 = candidates (first.take k) ∧
      (candidates (first.take k)).length = min k 101 ∧
      (run cfg (first.take k) s).1.g_mcast_registered = 1 ∧
      Call.mcast_leave_group ∉ (run cfg (first.take k) s).2) ∧
    (pings (run cfg first s).2).length = 101 ∧
    Call.mcast_leave_group ∈
      (bootstrap_handle_mcast cfg i.env i.rc i.c_addr0 (run cfg first s).1).2 ∧
    (bootstrap_handle_mcast cfg i.env i.rc i.c_addr0
      (run cfg first s).1).1.g_mcast_registered = 0 ∧
    pings (bootstrap_handle_mcast cfg i.env i.rc i.c_addr0 (run cfg first s).1).2 = [] ∧
    pings (run cfg later
      (bootstrap_handle_mcast cfg i.env i.rc i.c_addr0 (run cfg first s).1).1).2 = [] ∧
    pings (run cfg (first ++ i :: later) s).2 = candidates first ∧
    (run cfg (first ++ i :: later) s).1.g_mcast_registered = 0 := by
  have hmax : (5 : Int) * PACKET_LIMIT_MAX = 100 := by decide
  have hprefix : ∀ k : Nat,
      (run cfg (first.take k) s).1 =
        { s with g_packet_limit := s.g_packet_limit - (first.take k).length } ∧
      pings (run cfg (first.take k) s).2 = candidates (first.take k) ∧
      (candidates (first.take k)).length = (first.take k).length ∧
      ∀ c ∈ (run cfg (first.take k) s).2, c = Call.recvfrom 512 ∨ ∃ x, c = Call.kad_ping x := by
    intro k
    apply run_admitted cfg s.g_mcast_time (first.take k) s rfl
    · intro j hj
      exact hvalid j (List.mem_of_mem_take hj)
    · have : (first.take k).length ≤ 101 := by
        rw [List.length_take, hlen]
        exact Nat.min_le_right _ _
      rw [hreset, hmax]
      omega
  have hfull : first.take 101 = first := by
    exact List.take_of_length_le (by omega)
  obtain ⟨f1, f2, f3, -⟩ := hprefix 101
  rw [hfull] at f1 f2 f3
  have hs101 : (run cfg first s).1 =
      { g_packet_limit := -1, g_mcast_registered := 1, g_mcast_time := s.g_mcast_time } := by
    rw [f1, hreset, hmax, hlen, hjoined]
    rfl
  obtain ⟨d, hd⟩ := Option.isSome_iff_exists.mp hi.2.2
  have hb : bootstrap_handle_mcast cfg i.env i.rc i.c_addr0 (run cfg first s).1 =
      ({ g_packet_limit := -1, g_mcast_registered := 0, g_mcast_time := s.g_mcast_time },
        Call.recvfrom 512 :: Call.mcast_leave_group ::
          (mcast_leave_group cfg.modern cfg.g_lpd_addr i.env).2) := by
    rw [hs101, bootstrap_idle cfg i.env i.rc i.c_addr0
        { g_packet_limit := -1, g_mcast_registered := 1, g_mcast_time := s.g_mcast_time } hi.1,
      receive_step_refused cfg i.env i.rc i.c_addr0 _ d hi.2.1 hd
        (by show (-1 : Int) < 0; decide)]
    simp [hleave]
  have hpi : pings (bootstrap_handle_mcast cfg i.env i.rc i.c_addr0 (run cfg first s).1).2
      = [] := by
    rw [hb]
    simp [pings, leave_pings]
  have hpl : pings (run cfg later
      (bootstrap_handle_mcast cfg i.env i.rc i.c_addr0 (run cfg first s).1).1).2 = [] := by
    rw [hb]
    exact run_negative cfg later _ (by show (-1 : Int) < 0; decide) hlater
  refine ⟨?_, ?_, ?_, ?_, hpi, hpl, ?_, ?_⟩
  · intro k
    obtain ⟨k1, k2, k3, k4⟩ := hprefix k
    refine ⟨k2, ?_, by rw [k1]; exact hjoined, ?_⟩
    · rw [k3, List.length_take, hlen]
    · intro hmem
      rcases k4 _ hmem with h | ⟨x, h⟩ <;> cases h
  · rw [f2, f3, hlen]
  · rw [hb]
    simp
  · rw [hb]
  · rw [run_append, run_cons]
    dsimp only
    rw [pings_append, pings_append, f2, hpi, hpl]
    simp
  · rw [run_append, run_cons]
    dsimp only
    rw [hb]
    exact run_idle_not_joined cfg later _ rfl hlater

/-- C10 amended, at a concrete input: 102 valid datagrams after the reset at
time 0 and two more in the same window; after 21 of them the group is not
left, the 102nd makes the callback leave, and 101 candidates are forwarded in
all. -/
theorem C10_flood_102_witness :
    (run example_conf (List.take 21 (List.replicate 101 (example_invocation example_body)))
      example_state).1.g_mcast_registered = 1 ∧
    Call.mcast_leave_group ∈ (bootstrap_handle_mcast example_conf
      (example_invocation example_body).env (example_invocation example_body).rc
      (example_invocation example_body).c_addr0
      (run example_conf (List.replicate 101 (example_invocation example_body))
        example_state).1).2 ∧
    pings (run example_conf (List.replicate 101 (example_invocation example_body) ++
      example_invocation example_body ::
        [example_invocation example_body, example_invocation example_body])
      example_state).2 = candidates (List.replicate 101 (example_invocation example_body)) ∧
    (run example_conf (List.replicate 101 (example_invocation example_body) ++
      example_invocation example_body ::
        [example_invocation example_body, example_invocation example_body])
      example_state).1.g_mcast_registered = 0 :=
  have h := C10_flood_102 example_conf example_state
    (List.replicate 101 (example_invocation example_body)) (example_invocation example_body)
    [example_invocation example_body, example_invocation example_body]
    (by decide) (by decide) (example_valid 300 (by decide) 101) (by simp)
    ⟨by decide, by decide, rfl⟩ (by decide) (by decide)
  ⟨(h.1 21).2.2.1, h.2.2.1, h.2.2.2.2.2.2.1, h.2.2.2.2.2.2.2⟩

/-- C11. The `IP_MULTICAST_LOOP` request issued by `multicast_disable_loop`
carries the value 1 (loopback on), not 0, for every address family and every
outcome of the request, and so do the requests of `create_send_socket` and of
`create_receive_socket` on the sockets they return. -/
theorem C11_loop_request_value_one (af : Family) (setsockopt_rc : Int) :
    (multicast_disable_loop af setsockopt_rc).2.optname = SetupOpt.IP_MULTICAST_LOOP ∧
    (multicast_disable_loop af setsockopt_rc).2.value = 1 ∧
    (multicast_disable_loop af setsockopt_rc).2.value ≠ 0 ∧
    multicast_disable_loop Family.AF_INET 0 =
      (0, { level := Level.IPPROTO_IP, optname := SetupOpt.IP_MULTICAST_LOOP, value := 1 }) ∧
    multicast_disable_loop Family.AF_INET6 0 =
      (0, { level := Level.IPPROTO_IPV6, optname := SetupOpt.IP_MULTICAST_LOOP, value := 1 }) ∧
    create_send_socket Family.AF_INET example_setup =
      (5, [{ level := Level.IPPROTO_IP, optname := SetupOpt.IP_MULTICAST_TTL, value := 1 },
           { level := Level.IPPROTO_IP, optname := SetupOpt.IP_MULTICAST_LOOP, value := 1 }]) ∧
    create_receive_socket Family.AF_INET6 example_setup =
      (6, [{ level := Level.IPPROTO_IPV6, optname := SetupOpt.IP_MULTICAST_LOOP, value := 1 }]) := by
  refine ⟨?_, ?_, ?_, by decide, by decide, by decide, by decide⟩
  · unfold multicast_disable_loop
    dsimp only
    split_ifs <;> rfl
  · unfold multicast_disable_loop
    dsimp only
    split_ifs <;> rfl
  · unfold multicast_disable_loop
    dsimp only
    split_ifs <;> decide

/-- C12, as stated, fails: in an invocation at time 400 in which the timer is
due (next-due time 300), three peers are known and membership is Joined, the
callback makes no call at all: it does not call `mcast_leave_group`, and
membership is still Joined afterwards. -/
theorem C12_no_leave_when_peers_known :
    bootstrap_handle_mcast example_conf { example_env [] with now := 400, nodes := 3 } 0
      example_c_addr0 example_state =
      ({ g_packet_limit := 100, g_mcast_registered := 1, g_mcast_time := 700 }, []) ∧
    bootstrap_handle_mcast example_conf { example_env example_body with now := 400, nodes := 3 } 1
      example_c_addr0 example_state =
      ({ g_packet_limit := 99, g_mcast_registered := 1, g_mcast_time := 700 },
        [Call.recvfrom 512, Call.kad_ping
          { ss_family := Family.AF_INET, port := (200, 213), rest := [192, 168, 1, 7] }]) := by
  decide

/-- C12, amended: in every invocation in which the probe timer is due and the
overlay reports a non-zero peer count, the callback sends no probe and makes
no membership request, neither a join nor a leave, and the membership flag
after the invocation is the one before it: a Joined node stays Joined. The
group is left only when a datagram arrives while the rate counter is
negative: an invocation that makes a leave request, or that turns the flag
from Joined to something else, has received a datagram (`rc > 0` and a
successful receive) with the timer not due and the counter negative. -/
theorem C12_peers_known_keeps_membership (cfg : Conf) (e : Env) (rc : Int) (c_addr0 : IP)
    (s : State) (hdue : s.g_mcast_time ≤ e.now) (hn : e.nodes ≠ 0) :
    ((∀ c ∈ (bootstrap_handle_mcast cfg e rc c_addr0 s).2,
        is_leave_request c = false ∧ is_join_request c = false) ∧
      sends (bootstrap_handle_mcast cfg e rc c_addr0 s).2 = [] ∧
      (bootstrap_handle_mcast cfg e rc c_addr0 s).1.g_mcast_registered
        = s.g_mcast_registered) ∧
    (∀ (e' : Env) (rc' : Int) (a' : IP) (s' : State) (c : Call),
      c ∈ (bootstrap_handle_mcast cfg e' rc' a' s').2 → is_leave_request c = true →
      0 < rc' ∧ e'.datagram.isSome = true ∧ e'.now < s'.g_mcast_time ∧
        s'.g_packet_limit < 0 ∧ s'.g_mcast_registered = 1) ∧
    (∀ (e' : Env) (rc' : Int) (a' : IP) (s' : State),
      s'.g_mcast_registered = 1 →
      (bootstrap_handle_mcast cfg e' rc' a' s').1.g_mcast_registered ≠ 1 →
      0 < rc' ∧ e'.datagram.isSome = true ∧ e'.now < s'.g_mcast_time ∧
        s'.g_packet_limit < 0 ∧ (mcast_leave_group cfg.modern cfg.g_lpd_addr e').1 = 0) := by
  have ht := timer_step_gated cfg e s hdue hn
  refine ⟨⟨?_, ?_, ?_⟩, ?_, ?_⟩
  · intro c hc
    rw [bootstrap_eq, ht] at hc
    simp only [List.nil_append] at hc
    rcases receive_step_calls_admitted cfg e rc c_addr0 _
      (by show (0 : Int) ≤ 5 * PACKET_LIMIT_MAX; decide) c hc with h | ⟨x, h⟩ <;>
      rw [h] <;> exact ⟨rfl, rfl⟩
  · rw [bootstrap_sends, if_neg (by tauto)]
  · rw [bootstrap_eq]
    dsimp only
    rw [receive_step_registered, ht]
    dsimp only
    rw [if_neg]
    intro h
    exact absurd h.2.2.1 (by decide)
  · intro e' rc' a' s' c hc hl
    exact leave_request_only_over_budget cfg e' rc' a' s' c hc hl
  · intro e' rc' a' s' h1 hne
    exact unjoin_only_over_budget cfg e' rc' a' s' h1 hne

/-- C12 amended, at a concrete input: time 400, three peers known, membership
Joined, a datagram waiting. -/
theorem C12_peers_known_keeps_membership_witness :
    (∀ c ∈ (bootstrap_handle_mcast example_conf
        { example_env example_body with now := 400, nodes := 3 } 1 example_c_addr0
        example_state).2, is_leave_request c = false ∧ is_join_request c = false) ∧
    sends (bootstrap_handle_mcast example_conf
        { example_env example_body with now := 400, nodes := 3 } 1 example_c_addr0
        example_state).2 = [] ∧
    (bootstrap_handle_mcast example_conf
        { example_env example_body with now := 400, nodes := 3 } 1 example_c_addr0
        example_state).1.g_mcast_registered = 1 :=
  (C12_peers_known_keeps_membership example_conf
    { example_env example_body with now := 400, nodes := 3 } 1 example_c_addr0 example_state
    (by decide) (by decide)).1

/-- C13, as stated, fails: `mcast_join_group`, the join of the module (lines
37-108), called for a group that is already joined (membership flag 1) is not
a no-op: it issues its `setsockopt` request again, and it returns -1, not
success, when that request is refused. `mcast_leave_group` called while
membership is NotJoined issues its request as well. -/
theorem C13_join_issues_request :
    example_state.g_mcast_registered = 1 ∧
    mcast_join_group example_conf.modern example_conf.g_lpd_addr example_conf.dht_ifce
      (example_env []) = (0, [Call.setsockopt Sockopt.MCAST_JOIN_GROUP]) ∧
    mcast_join_group example_conf.modern example_conf.g_lpd_addr example_conf.dht_ifce
      { example_env [] with join_rc := -1 } = (-1, [Call.setsockopt Sockopt.MCAST_JOIN_GROUP]) ∧
    lpd_setup.g_mcast_registered = 0 ∧
    mcast_leave_group example_conf.modern example_conf.g_lpd_addr (example_env []) =
      (0, [Call.setsockopt Sockopt.MCAST_LEAVE_GROUP]) := by
  decide

/-- C13, amended: `mcast_join_group` and `mcast_leave_group` are not idempotent
by themselves: each returns success only when it has issued its `setsockopt`
request in that very call. The callback is what keeps join and leave
idempotent. Its join step (lines 215-218) is a no-op, with no call and the
state unchanged, when the membership flag is not 0. An invocation of
`bootstrap_handle_mcast` calls `mcast_join_group` exactly when the timer is
due, no peer is known and the membership flag is 0, so an invocation that
starts Joined makes no join request at all; and an invocation whose
membership flag is not 1 at the rate check makes no leave request at all. -/
theorem C13_callback_guards (cfg : Conf) (e : Env) (rc : Int) (c_addr0 : IP) (s : State) :
    ((Call.mcast_join_group ∈ (bootstrap_handle_mcast cfg e rc c_addr0 s).2 ↔
        s.g_mcast_time ≤ e.now ∧ e.nodes = 0 ∧ s.g_mcast_registered = 0) ∧
      (s.g_mcast_registered ≠ 0 →
        ∀ c ∈ (bootstrap_handle_mcast cfg e rc c_addr0 s).2, is_join_request c = false) ∧
      ((timer_step cfg e s).1.g_mcast_registered ≠ 1 →
        ∀ c ∈ (bootstrap_handle_mcast cfg e rc c_addr0 s).2, is_leave_request c = false)) ∧
    (s.g_mcast_registered ≠ 0 → join_step cfg e s = (s, [])) ∧
    (∀ (modern : Bool) (addr : IP) (ifce : Option (List Char)),
      (mcast_join_group modern addr ifce e).1 = 0 →
      Call.setsockopt Sockopt.MCAST_JOIN_GROUP ∈ (mcast_join_group modern addr ifce e).2 ∨
      Call.setsockopt Sockopt.IP_ADD_MEMBERSHIP ∈ (mcast_join_group modern addr ifce e).2 ∨
      Call.setsockopt Sockopt.IPV6_JOIN_GROUP ∈ (mcast_join_group modern addr ifce e).2) ∧
    (∀ (modern : Bool) (addr : IP),
      (mcast_leave_group modern addr e).1 = 0 →
      Call.setsockopt Sockopt.MCAST_LEAVE_GROUP ∈ (mcast_leave_group modern addr e).2 ∨
      Call.setsockopt Sockopt.IP_DROP_MEMBERSHIP ∈ (mcast_leave_group modern addr e).2 ∨
      Call.setsockopt Sockopt.IPV6_LEAVE_GROUP ∈ (mcast_leave_group modern addr e).2) := by
  refine ⟨⟨join_marker_mem cfg e rc c_addr0 s, ?_, ?_⟩, ?_, ?_, ?_⟩
  · intro h0 c hc
    rw [bootstrap_eq] at hc
    rcases List.mem_append.mp hc with h | h
    · rcases timer_step_calls cfg e s c h with h' | ⟨p, h'⟩
      · exact absurd h'.2 h0
      · rw [h']; rfl
    · rcases receive_step_calls cfg e rc c_addr0 _ c h with h' | ⟨x, h'⟩ | h'
      · rw [h']; rfl
      · rw [h']; rfl
      · exact leave_not_join c h'.1
  · intro h1 c hc
    rw [bootstrap_eq] at hc
    rcases List.mem_append.mp hc with h | h
    · rcases timer_step_calls cfg e s c h with h' | ⟨p, h'⟩
      · exact join_not_leave c h'.1
      · rw [h']; rfl
    · rcases receive_step_calls cfg e rc c_addr0 _ c h with h' | ⟨x, h'⟩ | h'
      · rw [h']; rfl
      · rw [h']; rfl
      · exact absurd h'.2.1 h1
  · intro h0
    rw [join_step_eq, if_neg (fun h => h0 h.1), if_neg h0]
  · intro modern addr ifce h
    exact join_success_issues modern addr ifce e h
  · intro modern addr h
    exact leave_success_issues modern addr e h

/-- C13 amended, at a concrete input: an invocation that starts Joined with
the timer due and no peer known makes no join request, and an invocation that
is not joined when an over-budget datagram arrives makes no leave request. -/
theorem C13_callback_guards_witness :
    (∀ c ∈ (bootstrap_handle_mcast example_conf { example_env [] with now := 400 } 0
        example_c_addr0 example_state).2, is_join_request c = false) ∧
    (∀ c ∈ (bootstrap_handle_mcast example_conf (example_env example_body) 1 example_c_addr0
        { g_packet_limit := -1, g_mcast_registered := 0, g_mcast_time := 300 }).2,
      is_leave_request c = false) ∧
    join_step example_conf { example_env [] with now := 400 } example_state
      = (example_state, []) :=
  ⟨(C13_callback_guards example_conf { example_env [] with now := 400 } 0 example_c_addr0
      example_state).1.2.1 (by decide),
   (C13_callback_guards example_conf (example_env example_body) 1 example_c_addr0
      { g_packet_limit := -1, g_mcast_registered := 0, g_mcast_time := 300 }).1.2.2 (by decide),
   (C13_callback_guards example_conf { example_env [] with now := 400 } 0 example_c_addr0
      example_state).2.1 (by decide)⟩

/-- C14. Membership transitions only via join and leave: in every state
reachable from `lpd_setup` by invocations of `bootstrap_handle_mcast` the
membership flag is 0 or 1; an invocation from such a state changes the flag
from 0 to 1 only if it called `mcast_join_group` and that call returned 0, and
from 1 to 0 only if it called `mcast_leave_group` and that call returned 0;
and when it called `mcast_join_group` and the call did not return 0, the flag
stays 0 and the invocation sends no probe. -/
theorem C14_membership_transitions (cfg : Conf) (invs : List Invocation) (e : Env) (rc : Int)
    (c_addr0 : IP) :
    ((run cfg invs lpd_setup).1.g_mcast_registered = 0 ∨
      (run cfg invs lpd_setup).1.g_mcast_registered = 1) ∧
    ((run cfg invs lpd_setup).1.g_mcast_registered = 0 →
      (bootstrap_handle_mcast cfg e rc c_addr0
        (run cfg invs lpd_setup).1).1.g_mcast_registered = 1 →
      Call.mcast_join_group ∈
        (bootstrap_handle_mcast cfg e rc c_addr0 (run cfg invs lpd_setup).1).2 ∧
      (mcast_join_group cfg.modern cfg.g_lpd_addr cfg.dht_ifce e).1 = 0) ∧
    ((run cfg invs lpd_setup).1.g_mcast_registered = 1 →
      (bootstrap_handle_mcast cfg e rc c_addr0
        (run cfg invs lpd_setup).1).1.g_mcast_registered = 0 →
      Call.mcast_leave_group ∈
        (bootstrap_handle_mcast cfg e rc c_addr0 (run cfg invs lpd_setup).1).2 ∧
      (mcast_leave_group cfg.modern cfg.g_lpd_addr e).1 = 0) ∧
    (Call.mcast_join_group ∈
        (bootstrap_handle_mcast cfg e rc c_addr0 (run cfg invs lpd_setup).1).2 →
      (mcast_join_group cfg.modern cfg.g_lpd_addr cfg.dht_ifce e).1 ≠ 0 →
      (bootstrap_handle_mcast cfg e rc c_addr0
        (run cfg invs lpd_setup).1).1.g_mcast_registered = 0 ∧
      sends (bootstrap_handle_mcast cfg e rc c_addr0 (run cfg invs lpd_setup).1).2 = []) := by
  generalize hs : (run cfg invs lpd_setup).1 = s
  have hreg : ∀ (e : Env) (rc : Int) (a : IP) (t : State),
      (bootstrap_handle_mcast cfg e rc a t).1.g_mcast_registered =
        if 0 < rc ∧ e.datagram.isSome = true ∧ (timer_step cfg e t).1.g_packet_limit < 0 ∧
            (timer_step cfg e t).1.g_mcast_registered = 1 ∧
            (mcast_leave_group cfg.modern cfg.g_lpd_addr e).1 = 0
        then 0 else (timer_step cfg e t).1.g_mcast_registered := by
    intro e rc a t
    rw [bootstrap_eq]
    exact receive_step_registered cfg e rc a _
  have hinv : s.g_mcast_registered = 0 ∨ s.g_mcast_registered = 1 := by
    rw [← hs]
    apply run_invariant cfg (fun t => t.g_mcast_registered = 0 ∨ t.g_mcast_registered = 1)
    · intro e rc a t ht
      show (bootstrap_handle_mcast cfg e rc a t).1.g_mcast_registered = 0 ∨
        (bootstrap_handle_mcast cfg e rc a t).1.g_mcast_registered = 1
      rw [hreg, timer_step_registered]
      split_ifs <;> simp_all
    · exact Or.inl rfl
  refine ⟨hinv, ?_, ?_, ?_⟩
  · intro h0 h1
    rw [hreg, timer_step_registered] at h1
    by_cases hJ : s.g_mcast_time ≤ e.now ∧ e.nodes = 0 ∧ s.g_mcast_registered = 0 ∧
        (mcast_join_group cfg.modern cfg.g_lpd_addr cfg.dht_ifce e).1 = 0
    · rw [join_marker_mem]
      exact ⟨⟨hJ.1, hJ.2.1, hJ.2.2.1⟩, hJ.2.2.2⟩
    · rw [if_neg hJ, h0] at h1
      split_ifs at h1 <;> exact absurd h1 (by decide)
  · intro h1 h0
    have hne : ¬ (s.g_mcast_time ≤ e.now ∧ e.nodes = 0 ∧ s.g_mcast_registered = 0 ∧
        (mcast_join_group cfg.modern cfg.g_lpd_addr cfg.dht_ifce e).1 = 0) := by
      intro h; rw [h1] at h; exact absurd h.2.2.1 (by decide)
    have ht : (timer_step cfg e s).1.g_mcast_registered = 1 := by
      rw [timer_step_registered, if_neg hne, h1]
    rw [hreg] at h0
    split_ifs at h0 with ha
    · refine ⟨?_, ha.2.2.2.2⟩
      rw [bootstrap_eq]
      exact List.mem_append_right _
        (receive_step_leave_marker cfg e rc c_addr0 _ ha.1 ha.2.1 ha.2.2.1 ha.2.2.2.1)
    · rw [ht] at h0; exact absurd h0 (by decide)
  · intro hj hfail
    rw [join_marker_mem] at hj
    obtain ⟨hdue, hn, h0⟩ := hj
    have hl := (timer_step_due cfg e s hdue).1
    have ht : (timer_step cfg e s).1.g_mcast_registered = 0 := by
      rw [timer_step_registered, if_neg (fun h => hfail h.2.2.2), h0]
    have hjs : (join_step cfg e s).1.g_mcast_registered = 0 := by
      rw [join_step_eq]
      dsimp only
      rw [if_neg (fun h => hfail h.2)]
      exact h0
    constructor
    · rw [hreg, ht, if_neg]
      intro h
      exact absurd h.2.2.2.1 (by decide)
    · rw [bootstrap_sends, hjs, if_neg]
      intro h
      exact absurd h.2.2 (by decide)

/-- C14, at a concrete input: after one invocation from set-up in which the
join failed, the flag is 0 and no probe was sent; the next invocation joins. -/
theorem C14_membership_transitions_witness :
    (bootstrap_handle_mcast example_conf { example_env [] with join_rc := -1 } 0 example_c_addr0
      (run example_conf [] lpd_setup).1).1.g_mcast_registered = 0 ∧
    sends (bootstrap_handle_mcast example_conf { example_env [] with join_rc := -1 } 0
      example_c_addr0 (run example_conf [] lpd_setup).1).2 = [] ∧
    Call.mcast_join_group ∈ (bootstrap_handle_mcast example_conf (example_env []) 0
      example_c_addr0 (run example_conf [] lpd_setup).1).2 :=
  ⟨((C14_membership_transitions example_conf [] { example_env [] with join_rc := -1 } 0
      example_c_addr0).2.2.2 (by decide) (by decide)).1,
   ((C14_membership_transitions example_conf [] { example_env [] with join_rc := -1 } 0
      example_c_addr0).2.2.2 (by decide) (by decide)).2,
   ((C14_membership_transitions example_conf [] (example_env []) 0
      example_c_addr0).2.1 (by decide) (by decide)).1⟩

/-- C15. Field order independence of decode: for every port `p` in
`[1, 65535]`, every server text `s` and version text `v` that do not contain
`Port: `, and every ordering of the three field lines `Port: p`, `Server: s`
and `Version: v`, with or without the request line in front and whatever
follows the three lines, `parse_packet` returns `p`. The lookup is by the first
occurrence of the marker as a substring: it is found in the middle of a line
(`X-Port: 7`), needs no line structure at all, and of two `Port: ` fields the
first is the one decoded. -/
theorem C15_field_order (p : Int) (s v : List Char) (lines : List (List Char)) (req : Bool)
    (tail : List Char) (h1 : 1 ≤ p) (h2 : p ≤ 65535)
    (hs : ¬ "Port: ".toList <:+: s) (hv : ¬ "Port: ".toList <:+: v)
    (hperm : lines.Perm [port_line p.toNat, server_line s, version_line v]) :
    parse_packet ((if req = true then request_line else []) ++ (lines.flatten ++ tail)) = p ∧
    parse_packet "X-Port: 7\r\nServer: a\r\nVersion: b\r\n".toList = 7 ∧
    parse_packet "Server: a Version: b Port: 9".toList = 9 ∧
    parse_packet "Port: 1\r\nPort: 2\r\nServer: a\r\nVersion: b\r\n".toList = 1 := by
  refine ⟨?_, by decide, by decide, by decide⟩
  have hn : p.toNat < 2 ^ 31 := by omega
  have hcast : ((p.toNat : Nat) : Int) = p := by omega
  have hall : ∀ l ∈ lines,
      l = port_line p.toNat ∨ l = server_line s ∨ l = version_line v := by
    intro l hl
    have := hperm.mem_iff.mp hl
    simpa using this
  have hmp : port_line p.toNat ∈ lines := hperm.mem_iff.mpr (by simp)
  have hms : server_line s ∈ lines := hperm.mem_iff.mpr (by simp)
  have hmv : version_line v ∈ lines := hperm.mem_iff.mpr (by simp)
  obtain ⟨R, hR⟩ := first_port_line p.toNat s v hs hv tail lines hall hmp
  have hshape : port_line p.toNat ++ R =
      "Port: ".toList ++ (fmt_u p.toNat ++ '\r' :: ("\n".toList ++ R)) := by
    unfold port_line
    rw [fmt_u_eq_repr p.toNat (by omega)]
    simp
  have hstr : strstr ((if req = true then request_line else []) ++ (lines.flatten ++ tail))
      "Port: ".toList = some ("Port: ".toList ++ (fmt_u p.toNat ++ '\r' :: ("\n".toList ++ R))) := by
    rw [← hshape, ← hR]
    cases req with
    | false => rfl
    | true => exact skip_request_line _
  have hocc : ∀ l marker : List Char, l ∈ lines → marker <+: l →
      marker <:+: (if req = true then request_line else []) ++ (lines.flatten ++ tail) := by
    intro l marker hl hpre
    exact (hpre.isInfix.trans (List.infix_of_mem_flatten hl)).trans (List.infix_append' _ _ _)
  rw [parse_packet_of_first_port _ _ p.toNat hn hstr
    (hocc _ _ hms (by unfold server_line; rw [List.append_assoc]; exact List.prefix_append _ _))
    (hocc _ _ hmv (by unfold version_line; rw [List.append_assoc]; exact List.prefix_append _ _)),
    hcast]

/-- C15, at a concrete input: port 6881 with the lines in the order Version,
Server, Port, after the request line and before a double CRLF. -/
theorem C15_field_order_witness :
    parse_packet
      "DHT-SEARCH * HTTP/1.0\r\nVersion: 2.0.1\r\nServer: KadNode\r\nPort: 6881\r\n\r\n\r\n".toList
      = 6881 :=
  ((C15_field_order 6881 "KadNode".toList "2.0.1".toList
    [version_line "2.0.1".toList, server_line "KadNode".toList, port_line 6881] true
    "\r\n\r\n".toList (by decide) (by decide) (by decide) (by decide)
    (by decide)).1.symm.trans (by decide)).symm

/-- C16. Probe timer monotonicity: for every invocation of
`bootstrap_handle_mcast`, whatever the clock shows, the next-due time after
the call is at least the next-due time before it; it is unchanged when the
timer is not due, and when the timer fires it becomes the current time plus
the fixed 5 minutes (300 seconds), which is at least 5 minutes after the old
next-due time. Hence it never decreases along any sequence of invocations,
with no assumption on the clock values of the invocations. -/
theorem C16_timer_monotone (cfg : Conf) (e : Env) (rc : Int) (c_addr0 : IP) (s : State)
    (invs : List Invocation) :
    s.g_mcast_time ≤ (bootstrap_handle_mcast cfg e rc c_addr0 s).1.g_mcast_time ∧
    (e.now < s.g_mcast_time →
      (bootstrap_handle_mcast cfg e rc c_addr0 s).1.g_mcast_time = s.g_mcast_time) ∧
    (s.g_mcast_time ≤ e.now →
      (bootstrap_handle_mcast cfg e rc c_addr0 s).1.g_mcast_time = e.now + 300 ∧
      s.g_mcast_time + 300 ≤ (bootstrap_handle_mcast cfg e rc c_addr0 s).1.g_mcast_time) ∧
    s.g_mcast_time ≤ (run cfg invs s).1.g_mcast_time := by
  have ht : ∀ now : Int, time_add_min now 5 = now + 300 := by
    intro now
    unfold time_add_min
    norm_num
  have hstep : ∀ (e : Env) (rc : Int) (a : IP) (t : State),
      t.g_mcast_time ≤ (bootstrap_handle_mcast cfg e rc a t).1.g_mcast_time := by
    intro e rc a t
    rw [bootstrap_time, ht]
    split_ifs <;> omega
  refine ⟨hstep e rc c_addr0 s, ?_, ?_, ?_⟩
  · intro h
    rw [bootstrap_time, if_neg (by omega)]
  · intro h
    rw [bootstrap_time, if_pos h, ht]
    exact ⟨rfl, by omega⟩
  · exact run_invariant cfg (fun t => s.g_mcast_time ≤ t.g_mcast_time)
      (fun e rc a t h => le_trans h (hstep e rc a t)) invs s (le_refl _)

/-- C16, at a concrete input: next-due time 300; the clock shows 400, then
jumps back to 10. -/
theorem C16_timer_monotone_witness :
    (bootstrap_handle_mcast example_conf { example_env [] with now := 400 } 0 example_c_addr0
      example_state).1.g_mcast_time = 400 + 300 ∧
    (bootstrap_handle_mcast example_conf (example_env []) 0 example_c_addr0
      example_state).1.g_mcast_time = example_state.g_mcast_time ∧
    example_state.g_mcast_time ≤ (run example_conf
      [{ rc := 0, c_addr0 := example_c_addr0, env := { example_env [] with now := 400 } },
       example_invocation []] example_state).1.g_mcast_time :=
  ⟨((C16_timer_monotone example_conf { example_env [] with now := 400 } 0 example_c_addr0
      example_state []).2.2.1 (by decide)).1,
   (C16_timer_monotone example_conf (example_env []) 0 example_c_addr0
      example_state []).2.1 (by decide),
   (C16_timer_monotone example_conf (example_env []) 0 example_c_addr0 example_state
      [{ rc := 0, c_addr0 := example_c_addr0, env := { example_env [] with now := 400 } },
       example_invocation []]).2.2.2⟩

/-- C18. Idle tick is receive-free: in every invocation with no inbound data
indicated (`rc <= 0`) the callback does exactly what its timer part does: it
attempts no receive, makes no leave request, hands no candidate to `kad_ping`
and does not decrement the rate counter (which is either unchanged or
re-armed to 100). If in addition the probe timer is not due, the module state
is unchanged and no call at all is made. -/
theorem C18_idle_tick (cfg : Conf) (e : Env) (rc : Int) (c_addr0 : IP) (s : State)
    (hrc : rc ≤ 0) :
    bootstrap_handle_mcast cfg e rc c_addr0 s = timer_step cfg e s ∧
    (∀ size, Call.recvfrom size ∉ (bootstrap_handle_mcast cfg e rc c_addr0 s).2) ∧
    (∀ c ∈ (bootstrap_handle_mcast cfg e rc c_addr0 s).2, is_leave_request c = false) ∧
    pings (bootstrap_handle_mcast cfg e rc c_addr0 s).2 = [] ∧
    (bootstrap_handle_mcast cfg e rc c_addr0 s).1.g_packet_limit =
      (if s.g_mcast_time ≤ e.now then 5 * PACKET_LIMIT_MAX else s.g_packet_limit) ∧
    (e.now < s.g_mcast_time → bootstrap_handle_mcast cfg e rc c_addr0 s = (s, [])) := by
  have hb : bootstrap_handle_mcast cfg e rc c_addr0 s = timer_step cfg e s := by
    rw [bootstrap_eq, receive_step_nothing cfg e rc c_addr0 _ hrc]
    simp
  refine ⟨hb, ?_, ?_, ?_, ?_, ?_⟩
  · intro size h
    rw [hb] at h
    rcases timer_step_calls cfg e s _ h with h' | ⟨p, h'⟩
    · exact absurd h'.1 Bool.false_ne_true
    · cases h'
  · intro c h
    rw [hb] at h
    rcases timer_step_calls cfg e s _ h with h' | ⟨p, h'⟩
    · exact join_not_leave c h'.1
    · rw [h']; rfl
  · rw [hb]
    exact timer_step_pings cfg e s
  · rw [hb]
    exact timer_step_limit cfg e s
  · intro h
    rw [hb]
    exact timer_step_idle cfg e s h

/-- C18, at a concrete input: an idle tick at time 10 while the next probe is
due at time 300 and a datagram would be waiting. -/
theorem C18_idle_tick_witness :
    bootstrap_handle_mcast example_conf (example_env example_body) 0 example_c_addr0
      example_state = (example_state, []) :=
  (C18_idle_tick example_conf (example_env example_body) 0 example_c_addr0 example_state
    (by decide)).2.2.2.2.2 (by decide)

/-- C19. Rate counter bounds: in every state reachable from `lpd_setup` by
invocations of `bootstrap_handle_mcast` the rate counter lies between -1 and
`5 * PACKET_LIMIT_MAX` (100); an invocation from such a state that receives a
datagram while the counter is non-negative at the rate check decrements it by
exactly 1, whatever the datagram holds and however long it is, and an
invocation in which the counter is -1 at the rate check leaves it at -1. -/
theorem C19_counter_bounds (cfg : Conf) (invs : List Invocation) (e : Env) (rc : Int)
    (c_addr0 : IP) :
    (-1 ≤ (run cfg invs lpd_setup).1.g_packet_limit ∧
      (run cfg invs lpd_setup).1.g_packet_limit ≤ 5 * PACKET_LIMIT_MAX) ∧
    (0 < rc → e.datagram.isSome = true →
      0 ≤ (timer_step cfg e (run cfg invs lpd_setup).1).1.g_packet_limit →
      (bootstrap_handle_mcast cfg e rc c_addr0 (run cfg invs lpd_setup).1).1.g_packet_limit =
        (timer_step cfg e (run cfg invs lpd_setup).1).1.g_packet_limit - 1) ∧
    ((timer_step cfg e (run cfg invs lpd_setup).1).1.g_packet_limit = -1 →
      (bootstrap_handle_mcast cfg e rc c_addr0 (run cfg invs lpd_setup).1).1.g_packet_limit
        = -1) := by
  have hmax : (5 : Int) * PACKET_LIMIT_MAX = 100 := by decide
  refine ⟨?_, ?_, ?_⟩
  · apply run_invariant cfg
      (fun t => -1 ≤ t.g_packet_limit ∧ t.g_packet_limit ≤ 5 * PACKET_LIMIT_MAX)
    · intro e rc a t ht
      show -1 ≤ (bootstrap_handle_mcast cfg e rc a t).1.g_packet_limit ∧
        (bootstrap_handle_mcast cfg e rc a t).1.g_packet_limit ≤ 5 * PACKET_LIMIT_MAX
      rw [bootstrap_limit, timer_step_limit, hmax]
      rw [hmax] at ht
      split_ifs <;> omega
    · show -1 ≤ lpd_setup.g_packet_limit ∧ lpd_setup.g_packet_limit ≤ 5 * PACKET_LIMIT_MAX
      exact ⟨by decide, by decide⟩
  · intro hrc hd hl
    rw [bootstrap_limit, if_pos ⟨hrc, hd, hl⟩]
  · intro h
    rw [bootstrap_limit, h, if_neg]
    intro h'
    exact absurd h'.2.2 (by decide)

/-- C19, at a concrete input: after one invocation from set-up that fired the
timer and received a datagram (counter 99), an oversized datagram of 600 bytes
is received: the counter becomes 98. -/
theorem C19_counter_bounds_witness :
    (bootstrap_handle_mcast example_conf (example_env (List.replicate 600 'x')) 1
      example_c_addr0
      (run example_conf [example_invocation example_body] lpd_setup).1).1.g_packet_limit =
    (timer_step example_conf (example_env (List.replicate 600 'x'))
      (run example_conf [example_invocation example_body] lpd_setup).1).1.g_packet_limit - 1 :=
  (C19_counter_bounds example_conf [example_invocation example_body]
    (example_env (List.replicate 600 'x')) 1 example_c_addr0).2.1 (by decide) rfl
    (by rw [timer_step_limit]; decide)

/-- C20. Port truncation on forwarding: for every admitted datagram shorter
than the buffer from an IPv4 or IPv6 sender whose body makes `parse_packet`
return a value `v > 0`, the port that `set_port` writes into the forwarded
address is `v mod 65536`, the value of the `unsigned short` argument, in
network byte order; the forwarded port is `v` exactly when `v <= 65535`. -/
theorem C20_port_truncation (cfg : Conf) (e : Env) (rc : Int) (c_addr0 : IP) (s : State)
    (payload : List Char) (A : IP) (v : Int)
    (hrc : 0 < rc) (hd : e.datagram = some (payload, A)) (hlen : payload.length < 512)
    (hadm : 0 ≤ (timer_step cfg e s).1.g_packet_limit)
    (hfam : A.ss_family = Family.AF_INET ∨ A.ss_family = Family.AF_INET6)
    (hv : parse_packet (cstr payload) = v) (hpos : 0 < v) :
    pings (bootstrap_handle_mcast cfg e rc c_addr0 s).2 =
      [{ ss_family := A.ss_family, port := htons (v.toNat % 65536), rest := A.rest }] ∧
    ntohs (htons (v.toNat % 65536)) = v.toNat % 65536 ∧
    (ntohs (htons (v.toNat % 65536)) = v.toNat ↔ v ≤ 65535) := by
  have hu : to_unsigned_short v = v.toNat % 65536 := by
    unfold to_unsigned_short
    omega
  have hn : ntohs (htons (v.toNat % 65536)) = v.toNat % 65536 := by
    unfold ntohs htons
    dsimp only
    omega
  refine ⟨?_, hn, ?_⟩
  · rw [bootstrap_eq]
    dsimp only
    rw [pings_append, timer_step_pings, List.nil_append,
      receive_step_admitted cfg e rc c_addr0 _ payload A hrc hd hadm,
      if_pos ⟨hlen, by omega⟩, hv, hu]
    rcases hfam with hfam | hfam <;> simp [pings, set_port, hfam]
  · rw [hn]
    constructor <;> intro h <;> omega

/-- C20, at a concrete input: the body `Port: 70000` makes the callback forward
the sender with port 70000 mod 65536 = 4464 (bytes 17 and 112). -/
theorem C20_port_truncation_witness :
    pings (bootstrap_handle_mcast example_conf
      (example_env "Port: 70000\r\nServer: X\r\nVersion: Y\r\n\r\n\r\n".toList) 1
      example_c_addr0 example_state).2 =
      [{ ss_family := Family.AF_INET, port := (17, 112), rest := [192, 168, 1, 7] }] :=
  (C20_port_truncation example_conf
    (example_env "Port: 70000\r\nServer: X\r\nVersion: Y\r\n\r\n\r\n".toList) 1
    example_c_addr0 example_state "Port: 70000\r\nServer: X\r\nVersion: Y\r\n\r\n\r\n".toList
    example_sender 70000 (by decide) rfl (by decide) (by decide) (Or.inl rfl) (by decide)
    (by decide)).1

end LPD
